import Mathlib

/-!
Shallow embedding of `MxeReader.py` (Valkyria4MxeReader): the field codec,
the XLB container parser, the MXE TOC read/write engine and the CSV
tabular bridge, together with proofs settling the frozen claims.

Conventions:
* Python `bytes` values are `List Nat` with entries below 256.
* Python `int` is `Int`; `struct` pack/unpack failures (`struct.error`)
  and other fatal exceptions are modelled by `Option`/`none`.
* Python strings are `List Char`.  Text decoding (`shift_jisx0213`)
  coincides with the identity byte-to-codepoint map on ASCII, which is
  all the theorems below exercise.
-/

namespace Mxe

/-- Python `bytes`: a list of naturals; well-formed buffers are below 256. -/
abbrev Bytes := List Nat

/-- All entries of a buffer are actual bytes. -/
def ByteOk (l : Bytes) : Prop := ∀ b ∈ l, b < 256

instance (l : Bytes) : Decidable (ByteOk l) := by
  unfold ByteOk; infer_instance

/-! ### Integer converters (`struct` wrappers, lines 93-127 / 153-172) -/

/-- `bytesAsLEInt`: `struct.unpack_from("<i", buf, 0)[0]` — little-endian
signed 32-bit read of the first four bytes; `none` models `struct.error`
when fewer than four bytes are available. -/
def bytesAsLEInt (buf : Bytes) : Option Int :=
  match buf with
  | b0 :: b1 :: b2 :: b3 :: _ =>
    some (if b0 + 256 * b1 + 65536 * b2 + 16777216 * b3 < 2147483648
      then ((b0 + 256 * b1 + 65536 * b2 + 16777216 * b3 : Nat) : Int)
      else ((b0 + 256 * b1 + 65536 * b2 + 16777216 * b3 : Nat) : Int) - 4294967296)
  | _ => none

/-- `bytesAsBEInt`: `struct.unpack_from(">i", buf, 0)[0]`. -/
def bytesAsBEInt (buf : Bytes) : Option Int :=
  match buf with
  | b0 :: b1 :: b2 :: b3 :: _ =>
    some (if b3 + 256 * b2 + 65536 * b1 + 16777216 * b0 < 2147483648
      then ((b3 + 256 * b2 + 65536 * b1 + 16777216 * b0 : Nat) : Int)
      else ((b3 + 256 * b2 + 65536 * b1 + 16777216 * b0 : Nat) : Int) - 4294967296)
  | _ => none

/-- `bytesAsLEShort`: `struct.unpack_from("<h", buf, 0)[0]`. -/
def bytesAsLEShort (buf : Bytes) : Option Int :=
  match buf with
  | b0 :: b1 :: _ =>
    some (if b0 + 256 * b1 < 32768 then ((b0 + 256 * b1 : Nat) : Int)
      else ((b0 + 256 * b1 : Nat) : Int) - 65536)
  | _ => none

/-- `bytesAsBEShort`: `struct.unpack_from(">h", buf, 0)[0]`. -/
def bytesAsBEShort (buf : Bytes) : Option Int :=
  match buf with
  | b0 :: b1 :: _ =>
    some (if b1 + 256 * b0 < 32768 then ((b1 + 256 * b0 : Nat) : Int)
      else ((b1 + 256 * b0 : Nat) : Int) - 65536)
  | _ => none

/-- `bytesAsChar`: `struct.unpack_from("<b", buf, 0)[0]` — signed byte. -/
def bytesAsChar (buf : Bytes) : Option Int :=
  match buf with
  | b0 :: _ => some (if b0 < 128 then (b0 : Int) else (b0 : Int) - 256)
  | _ => none

/-- `leIntAsBytes`: `struct.pack("<i", int(obj))`; `none` models the
`struct.error` raised for an out-of-range value. -/
def leIntAsBytes (n : Int) : Option Bytes :=
  if -2147483648 ≤ n ∧ n < 2147483648 then
    some [(n % 4294967296).toNat % 256, (n % 4294967296).toNat / 256 % 256,
      (n % 4294967296).toNat / 65536 % 256, (n % 4294967296).toNat / 16777216 % 256]
  else none

/-- `beIntAsBytes`: `struct.pack(">i", int(obj))`. -/
def beIntAsBytes (n : Int) : Option Bytes :=
  if -2147483648 ≤ n ∧ n < 2147483648 then
    some [(n % 4294967296).toNat / 16777216 % 256, (n % 4294967296).toNat / 65536 % 256,
      (n % 4294967296).toNat / 256 % 256, (n % 4294967296).toNat % 256]
  else none

/-- `leShortAsBytes`: `struct.pack("<h", int(obj))`. -/
def leShortAsBytes (n : Int) : Option Bytes :=
  if -32768 ≤ n ∧ n < 32768 then
    some [(n % 65536).toNat % 256, (n % 65536).toNat / 256 % 256]
  else none

/-- `beShortAsBytes`: `struct.pack(">h", int(obj))`. -/
def beShortAsBytes (n : Int) : Option Bytes :=
  if -32768 ≤ n ∧ n < 32768 then
    some [(n % 65536).toNat / 256 % 256, (n % 65536).toNat % 256]
  else none

/-- `charAsBytes`: `struct.pack("<b", int(obj))`. -/
def charAsBytes (n : Int) : Option Bytes :=
  if -128 ≤ n ∧ n < 128 then some [(n % 256).toNat] else none

/-! ### Hex display converters (lines 129-139 / 174-182) -/

/-- One upper-case hex digit, as `hex(n)[2:]... .upper()` yields for `n < 16`. -/
def hexChar (n : Nat) : Char :=
  if n < 10 then Char.ofNat (48 + n) else Char.ofNat (55 + n)

/-- The two digits of one byte: `hex(byte)[2:].zfill(2).upper()` for `byte < 256`. -/
def byteHexPair (b : Nat) : List Char := [hexChar (b / 16), hexChar (b % 16)]

/-- `bytesAsLEHex`: `'0x'` then, for each byte of `reversed(buf)`, its two
upper-case digits and a hyphen; the final `s[:-1]` drops the last character. -/
def bytesAsLEHex (buf : Bytes) : List Char :=
  (['0', 'x'] ++ buf.reverse.flatMap (fun b => byteHexPair b ++ ['-'])).dropLast

/-- `bytesAsBEHex`: same, iterating `buf` in order. -/
def bytesAsBEHex (buf : Bytes) : List Char :=
  (['0', 'x'] ++ buf.flatMap (fun b => byteHexPair b ++ ['-'])).dropLast

/-- Value of one hex digit as `codecs.decode(..., "hex")` accepts it. -/
def hexVal (c : Char) : Option Nat :=
  if 48 ≤ c.toNat ∧ c.toNat ≤ 57 then some (c.toNat - 48)
  else if 97 ≤ c.toNat ∧ c.toNat ≤ 102 then some (c.toNat - 87)
  else if 65 ≤ c.toNat ∧ c.toNat ≤ 70 then some (c.toNat - 55)
  else none

/-- `codecs.decode(s, "hex")`: consecutive digit pairs to bytes; `none` on an
odd digit count or a non-digit. -/
def hexPairsToBytes : List Char → Option Bytes
  | [] => some []
  | c1 :: c2 :: rest => do
    let h ← hexVal c1
    let l ← hexVal c2
    let r ← hexPairsToBytes rest
    pure ((16 * h + l) :: r)
  | [_] => none

/-- `str(obj).replace('-', '')`. -/
def stripHyphens (s : List Char) : List Char := s.filter (fun c => c ≠ '-')

/-- `... .replace('0x', '')`: removes every (non-overlapping) `0x` substring,
scanning left to right. -/
def strip0x : List Char → List Char
  | [] => []
  | [c] => [c]
  | c1 :: c2 :: rest =>
    if c1 = '0' ∧ c2 = 'x' then strip0x rest
    else c1 :: strip0x (c2 :: rest)

/-- `leHexAsBytes`: strip hyphens and `0x`, hex-decode, then
`struct.pack("<i", struct.unpack("<i", ...))` — `unpack` (not `unpack_from`)
demands exactly four bytes. -/
def leHexAsBytes (s : List Char) : Option Bytes :=
  match hexPairsToBytes (strip0x (stripHyphens s)) with
  | none => none
  | some bs => if bs.length = 4 then (bytesAsLEInt bs).bind leIntAsBytes else none

/-- `beHexAsBytes`: same with `">i"`. -/
def beHexAsBytes (s : List Char) : Option Bytes :=
  match hexPairsToBytes (strip0x (stripHyphens s)) with
  | none => none
  | some bs => if bs.length = 4 then (bytesAsBEInt bs).bind beIntAsBytes else none

/-! ### File reading primitives

A binary file is its byte list; a read cursor is an `Int` (Python raises on a
negative seek, which the `Option` layer reports at the next read). -/

/-- `f.seek(pos); f.read(n)`: at most `n` bytes from `pos`; a negative `n`
reads to the end of the file (Python semantics of `read` on a negative
count).  A negative position yields nothing (the seek itself would raise;
every caller that can be reached with one goes through `readIntAt`). -/
def readChunk (file : Bytes) (pos n : Int) : Bytes :=
  if pos < 0 then []
  else if n < 0 then file.drop pos.toNat
  else (file.drop pos.toNat).take n.toNat

/-- `bytesAsLEInt(f.read(4))` at `pos`; `none` models the `struct.error` on a
short read and the `ValueError` of a negative seek. -/
def readIntAt (file : Bytes) (pos : Int) : Option Int :=
  if pos < 0 then none else bytesAsLEInt (readChunk file pos 4)

/-- `bytes.rstrip(chr(0))`-style strip used by `bytesAsString` before the
`CHNK` comparison (shift_jisx0213 is the identity on the ASCII tag). -/
def dropTrailingZeros (l : Bytes) : Bytes :=
  (l.reverse.dropWhile (fun b => b = 0)).reverse

/-! ### XLB container parser (`readXLB`, lines 312-448) -/

/-- One XLB section: `[[recordSize, recordCount, descrLen, descr], records]`;
a record is `[id, text]` where the payload starts as the placeholder `''`
(modelled `none`) and is filled during the keyed pass. -/
structure XLBSection where
  recordSize : Int
  recordCount : Int
  descrLen : Int
  descr : Bytes
  records : List (Int × Option Bytes)
deriving DecidableEq, Repr

/-- In-place update of one element, no-op out of range. -/
def modifyAt {α : Type} (f : α → α) : Nat → List α → List α
  | _, [] => []
  | 0, a :: l => f a :: l
  | n + 1, a :: l => a :: modifyAt f n l

/-- Python list index assignment semantics: non-negative indices from the
front, negative ones from the back.  (An index out of range raises in
Python; here it is a no-op and the theorems stay in range.) -/
def pyModify {α : Type} (l : List α) (i : Int) (f : α → α) : List α :=
  if 0 ≤ i then modifyAt f i.toNat l
  else if (-i).toNat ≤ l.length then modifyAt f (l.length - (-i).toNat) l
  else l

/-- `data[currHeader][0][1]`: the record count of the current section.
(Python would raise past the last section; the theorems stay in range.) -/
def secCount (data : List XLBSection) (h : Int) : Int :=
  match data.get? h.toNat with
  | some s => s.recordCount
  | none => 0

/-- `data[currHeader][1][currRec][1] = rec_bytes`. -/
def storePayload (data : List XLBSection) (h r : Int) (b : Bytes) : List XLBSection :=
  pyModify data h (fun s =>
    { s with records := pyModify s.records r (fun rec => (rec.1, some b)) })

/-- The five hard-coded `(prev_id2, rec_id2)` transition fixes
(lines 404-418), applied as in the source: five successive `if`s. -/
def applyCrutch (prev id2 r : Int) : Int :=
  let r1 := if id2 = 108184 ∧ prev = 108120 then 0 else r
  let r2 := if id2 = 157496 ∧ prev = 157368 then 0 else r1
  let r3 := if id2 = 160312 ∧ prev = 160248 then 0 else r2
  let r4 := if id2 = 177416 ∧ prev = 175880 then 1 else r3
  if id2 = 174456 ∧ prev = 172856 then 0 else r4

/-- The re-check loop for wholly empty sections (lines 421-424):
`while currRec > count(currHeader): currRec = currRec - (count(currHeader) - 1) - 3;
currHeader += 1`.  Fuel bounds the section advances; callers pass enough
for every in-range run. -/
def skipEmptyLoop (data : List XLBSection) : Nat → Int → Int → Int × Int
  | 0, h, r => (h, r)
  | fuel + 1, h, r =>
    if secCount data h < r then
      skipEmptyLoop data fuel (h + 1) (r - (secCount data h - 1) - 3)
    else (h, r)

/-- The section-boundary carryover (lines 395-424): `empty_old`, advance,
`currRec = add - empty_old - 3`, the crutch table, then the re-check loop. -/
def boundaryStep (data : List XLBSection) (h r add prev id2 : Int) : Int × Int :=
  let emptyOld := secCount data h - 1 - r
  let r1 := applyCrutch prev id2 (add - emptyOld - 3)
  skipEmptyLoop data (data.length + 1) (h + 1) r1

/-- One placement decision (lines 389-424): `add = (rec_id2 - prev_id2)//16`;
stay in the section when `currRec + add` is below its record count, else
take the boundary step. -/
def placeStep (data : List XLBSection) (h r prev id2 : Int) : Int × Int :=
  let add := (id2 - prev).fdiv 16
  if r + add < secCount data h then (h, r + add)
  else boundaryStep data h r add prev id2

/-- The payload loop of lines 383-431 over the already-read records:
place each record, store its bytes, remember `prev_id2`. -/
def placeAll (data : List XLBSection) (h r prev : Int) :
    List (Int × Bytes) → List XLBSection
  | [] => data
  | (id2, b) :: rest =>
    let s := placeStep data h r prev id2
    placeAll (storePayload data s.1 s.2 b) s.1 s.2 id2 rest

/-- Seeding plus loop (lines 370-431): the first record lands in section 0 at
slot `(key - 48)//16`, the rest follow `placeAll`. -/
def placeFromFirst (data : List XLBSection) (id0 : Int) (b0 : Bytes)
    (rest : List (Int × Bytes)) : List XLBSection :=
  placeAll (storePayload data 0 ((id0 - 48).fdiv 16) b0) 0 ((id0 - 48).fdiv 16) id0 rest

/-- One payload record: `(id, size, bytes)`; returns the record and the next
cursor (`f.read` advances by the bytes actually obtained). -/
def readPayloadRec (file : Bytes) (pos : Int) : Option ((Int × Bytes) × Int) := do
  let id2 ← readIntAt file pos
  let size ← readIntAt file (pos + 4)
  let b := readChunk file (pos + 8) size
  pure ((id2, b), pos + 8 + b.length)

/-- `n` consecutive payload records. -/
def readPayloadRecs (file : Bytes) : Nat → Int → Option (List (Int × Bytes))
  | 0, _ => some []
  | n + 1, pos => do
    let (rec0, p2) ← readPayloadRec file pos
    let rest ← readPayloadRecs file n p2
    pure (rec0 :: rest)

/-- Skeleton rows of one section header (lines 351-354): each carries only a
key; `f.seek(f.tell() + recordSize - 4)` skips its payload area. -/
def readXLBSkeleton (file : Bytes) (recordSize : Int) :
    Nat → Int → Option (List (Int × Option Bytes) × Int)
  | 0, pos => some ([], pos)
  | n + 1, pos => do
    let id0 ← readIntAt file pos
    let p2 := pos + recordSize
    if p2 < 0 then none
    else do
      let (rest, pend) ← readXLBSkeleton file recordSize n p2
      pure ((id0, none) :: rest, pend)

/-- The header phase (lines 342-357): per section `(recordSize, recordCount,
descrLen, descr)` then `recordCount` skeleton rows. -/
def readXLBSections (file : Bytes) : Nat → Int → Option (List XLBSection × Int)
  | 0, pos => some ([], pos)
  | n + 1, pos => do
    let recordSize ← readIntAt file pos
    let recordCount ← readIntAt file (pos + 4)
    let descrLen ← readIntAt file (pos + 8)
    let descr := readChunk file (pos + 12) descrLen
    let (recs, p2) ← readXLBSkeleton file recordSize recordCount.toNat
      (pos + 12 + descr.length)
    let (rest, pend) ← readXLBSections file n p2
    pure (⟨recordSize, recordCount, descrLen, descr, recs⟩ :: rest, pend)

/-- The four-byte tag `"CHNK"`. -/
def chnkTag : Bytes := [67, 72, 78, 75]

/-- `readXLB` (lines 312-433): header phase from 0x10 after the type count at
0x4; on a marker mismatch the error is printed and the header-only `data` is
returned; otherwise the payload-record count, the hand-read first record and
the placement loop.  `none` models the uncaught read exceptions. -/
def readXLB (file : Bytes) : Option (List XLBSection) := do
  let typeCount ← readIntAt file 4
  let (data, pos) ← readXLBSections file typeCount.toNat 16
  if dropTrailingZeros (readChunk file pos 4) ≠ chnkTag then
    pure data
  else do
    let recordCount ← readIntAt file (pos + 4)
    let (rec0, p1) ← readPayloadRec file (pos + 8)
    let rest ← readPayloadRecs file (recordCount.toNat - 1) p1
    pure (placeFromFirst data rec0.1 rec0.2 rest)

/-- `findByIDInXLB` (lines 435-448): first payload whose id matches, else
`none` (Python `None`); an unfilled slot yields its placeholder. -/
def findByIDInXLB (data : List XLBSection) (id0 : Int) : Option (Option Bytes) :=
  match data with
  | [] => none
  | s :: rest =>
    match s.records.find? (fun rec => rec.1 = id0) with
    | some rec => some rec.2
    | none => findByIDInXLB rest id0


/-! ### Concrete XLB artifacts used by the claims -/

/-- A concrete XLB image: type count 1 at 0x4; at 0x10 one section header
(stride 16, record count 1, empty description) and its skeleton row with
key 48; then the marker bytes spell `ABCD`, not `CHNK`. -/
def xlbBadMarkerFile : Bytes :=
  [0, 0, 0, 0, 1, 0, 0, 0, 0, 0, 0, 0, 0, 0, 0, 0,
   16, 0, 0, 0, 1, 0, 0, 0, 0, 0, 0, 0, 48, 0, 0, 0,
   0, 0, 0, 0, 0, 0, 0, 0, 0, 0, 0, 0, 65, 66, 67, 68]

/-- A three-section container (record counts 2, 1, 5) exercising the
carryover re-check loop. -/
def dataC6 : List XLBSection :=
  [⟨16, 2, 0, [], [(0, none), (16, none)]⟩,
   ⟨16, 1, 0, [], [(100, none)]⟩,
   ⟨16, 5, 0, [], [(200, none), (216, none), (232, none), (248, none), (264, none)]⟩]

/-! ### Template data types and Python values -/

/-- The datatype identifiers of the template language (the keys of
`DataTypes`/`ConvertFunctions`), plus the free-form `other` tag for
identifiers outside the fixed set.  `sTxt` is the identifier `"s"`. -/
inductive DType
  | li | li2 | lf | lh | bi | bi2 | bf | bh | i1
  | lip | lpi | lp | bip | bpi | bp | sTxt
  | other (tag : List Char)
deriving DecidableEq, Repr

/-- The literal spelling of each identifier (`"<i"`, `">pi"`, ...). -/
def dtChars : DType → List Char
  | .li => ['<', 'i']
  | .li2 => ['<', 'i', '2']
  | .lf => ['<', 'f']
  | .lh => ['<', 'h']
  | .bi => ['>', 'i']
  | .bi2 => ['>', 'i', '2']
  | .bf => ['>', 'f']
  | .bh => ['>', 'h']
  | .i1 => ['i', '1']
  | .lip => ['<', 'i', 'p']
  | .lpi => ['<', 'p', 'i']
  | .lp => ['<', 'p']
  | .bip => ['>', 'i', 'p']
  | .bpi => ['>', 'p', 'i']
  | .bp => ['>', 'p']
  | .sTxt => ['s']
  | .other tag => tag

/-- `DataTypes` (lines 68-88): identifier to record length; note `"s"` is
not a key of this dictionary. -/
def DataTypes : DType → Option Nat
  | .li => some 4
  | .li2 => some 2
  | .lf => some 4
  | .lh => some 4
  | .bi => some 4
  | .bi2 => some 2
  | .bf => some 4
  | .bh => some 4
  | .i1 => some 1
  | .lip => some 4
  | .lpi => some 4
  | .lp => some 4
  | .bip => some 4
  | .bpi => some 4
  | .bp => some 4
  | .sTxt => none
  | .other _ => none

/-- The pointer identifiers always skipped on import (line 726). -/
def isPointerDT (dt : DType) : Bool :=
  dt = .lp ∨ dt = .bp ∨ dt = .lpi ∨ dt = .bpi ∨ dt = .lip ∨ dt = .bip

/-- Python values as they flow through CSV cells: `int`, `str`, `bytes`,
`None`, and floats.  A float is carried as an uninterpreted token of its
little-endian source bytes: the lossy `round(..., 2)` normalization is not
modelled, and every theorem below keeps float columns out of scope by
hypothesis rather than depending on float semantics. -/
inductive PyVal
  | int (n : Int)
  | str (s : List Char)
  | float (t : Bytes)
  | bytes (b : Bytes)
  | pynone
deriving DecidableEq, Repr

/-- One decoded field value: the plain `f.read` buffer, the
`[raw address bytes, resolved value]` pair of a resolved pointer, or the
Python `None` an unknown-type import can store. -/
inductive FieldVal
  | raw (b : Bytes)
  | pair (addr : Bytes) (v : PyVal)
  | noneV
deriving DecidableEq, Repr

/-- Decimal digit character. -/
def digitChar (n : Nat) : Char := Char.ofNat (48 + n)

/-- `str(n)` for a natural number (most significant digit first). -/
def natChars (n : Nat) : List Char :=
  if n = 0 then ['0'] else (Nat.digits 10 n).reverse.map digitChar

/-- `str(n)` for an integer. -/
def intChars (n : Int) : List Char :=
  if n < 0 then '-' :: natChars (-n).toNat else natChars n.toNat

/-- One decimal digit value. -/
def digitVal (c : Char) : Option Nat :=
  if 48 ≤ c.toNat ∧ c.toNat ≤ 57 then some (c.toNat - 48) else none

/-- Left-to-right accumulation of decimal digits. -/
def digitsValAux : Nat → List Char → Option Nat
  | acc, [] => some acc
  | acc, c :: rest =>
    match digitVal c with
    | none => none
    | some d => digitsValAux (acc * 10 + d) rest

/-- All-digit parse of a nonempty string. -/
def digitsVal (l : List Char) : Option Nat :=
  if l = [] then none else digitsValAux 0 l

/-- `int(s)` on a string: optional sign then decimal digits (whitespace and
underscore forms are not modelled; no theorem uses them). -/
def parseIntChars (l : List Char) : Option Int :=
  match l with
  | [] => none
  | c :: rest =>
    if c = '-' then (digitsVal rest).map (fun n : Nat => -(n : Int))
    else if c = '+' then (digitsVal rest).map (fun n : Nat => (n : Int))
    else (digitsVal (c :: rest)).map (fun n : Nat => (n : Int))

/-- `int(obj)` as the import path uses it. -/
def pyInt (v : PyVal) : Option Int :=
  match v with
  | .int n => some n
  | .str s => parseIntChars s
  | .bytes b => parseIntChars (b.map Char.ofNat)
  | _ => none

/-- `str(obj)` for the values the theorems exercise. -/
def pyStr (v : PyVal) : Option (List Char) :=
  match v with
  | .str s => some s
  | .int n => some (intChars n)
  | _ => none

/-- `buf.decode('shift_jisx0213').rstrip(chr(0))`; on ASCII (all the
theorems use) the decode is byte-to-codepoint. -/
def bytesAsStringChars (buf : Bytes) : List Char :=
  (dropTrailingZeros buf).map Char.ofNat

/-- `.replace(chr(10), '\\LF')` of the export path. -/
def escapeLF : List Char → List Char
  | [] => []
  | c :: rest =>
    if c.toNat = 10 then '\\' :: 'L' :: 'F' :: escapeLF rest else c :: escapeLF rest

/-- `x.split(':', 1) if ':' in x else (x, '')`. -/
def splitFirstColon (s : List Char) : List Char × List Char :=
  (s.takeWhile (fun c => c ≠ ':'),
    match s.dropWhile (fun c => c ≠ ':') with
    | [] => []
    | _ :: rest => rest)

/-- `bytesToText` (lines 248-253 with `ConvertFunctions`): decode one buffer
by identifier; `none` models the uncaught `struct.error` of a short buffer;
an unknown identifier yields Python `None`.  The `<f`/`>f` branches carry
the source bytes as an uninterpreted token: the lossy
`round(struct.unpack(..)[0], 2)` normalization of `bytesAsLEFloat` and
`bytesAsBEFloat` (lines 112-127) is *not* modelled, so float columns are
outside the faithful fragment of this embedding and every round-trip
theorem below excludes them by hypothesis. -/
def bytesToText (buf : Bytes) (dt : DType) : Option PyVal :=
  match dt with
  | .li => (bytesAsLEInt buf).map PyVal.int
  | .li2 => (bytesAsLEShort buf).map PyVal.int
  | .lf => if 4 ≤ buf.length then some (.float (buf.take 4)) else none
  | .lh => some (.str (bytesAsLEHex buf))
  | .bi => (bytesAsBEInt buf).map PyVal.int
  | .bi2 => (bytesAsBEShort buf).map PyVal.int
  | .bf => if 4 ≤ buf.length then some (.float ((buf.take 4).reverse)) else none
  | .bh => some (.str (bytesAsBEHex buf))
  | .i1 => (bytesAsChar buf).map PyVal.int
  | .lip => (bytesAsLEInt buf).map PyVal.int
  | .lpi => (bytesAsLEInt buf).map PyVal.int
  | .lp => (bytesAsLEInt buf).map PyVal.int
  | .bip => (bytesAsBEInt buf).map PyVal.int
  | .bpi => (bytesAsBEInt buf).map PyVal.int
  | .bp => (bytesAsBEInt buf).map PyVal.int
  | .sTxt => some (.str (bytesAsStringChars buf))
  | .other _ => some .pynone

/-- `objToBytes` (lines 255-260 with `ConvertBackFunctions`): encode one cell
by identifier.  Outer `none` is an uncaught exception (parse or pack
failure); inner `none` is the Python `None` returned for an unknown
identifier.  The `<f`/`>f` branches emit the token's bytes instead of
`struct.pack` of the parsed float (lines 168-172): like `bytesToText`, the
float codec is not byte-faithful here, and no theorem below relies on it -
the round-trip statement excludes float columns by hypothesis. -/
def objToBytes (v : PyVal) (dt : DType) : Option (Option Bytes) :=
  match dt with
  | .li => ((pyInt v).bind leIntAsBytes).map some
  | .li2 => ((pyInt v).bind leShortAsBytes).map some
  | .lf => (match v with | .float t => some t | _ => none).map some
  | .lh => ((pyStr v).bind leHexAsBytes).map some
  | .bi => ((pyInt v).bind beIntAsBytes).map some
  | .bi2 => ((pyInt v).bind beShortAsBytes).map some
  | .bf => (match v with | .float t => some t.reverse | _ => none).map some
  | .bh => ((pyStr v).bind beHexAsBytes).map some
  | .i1 => ((pyInt v).bind charAsBytes).map some
  | .lip => ((pyInt v).bind leIntAsBytes).map some
  | .lpi => ((pyInt v).bind leIntAsBytes).map some
  | .lp => ((pyInt v).bind leIntAsBytes).map some
  | .bip => ((pyInt v).bind beIntAsBytes).map some
  | .bpi => ((pyInt v).bind beIntAsBytes).map some
  | .bp => ((pyInt v).bind beIntAsBytes).map some
  | .sTxt => (match v with | .str s => some (s.map Char.toNat) | _ => none).map some
  | .other _ => some none


/-! ### MXE settings, templates, TOC entries -/

/-- `MXE_SETTINGS` (lines 29-50).  In the program the dictionary passed to
each operation and the module-global one consulted by `followAddress` are
the same object, so a single structure models both. -/
structure MxeSettings where
  addressOffset : Int
  mainTableCountAddr : Int
  mainTableStartAddrAddr : Int
  tocEntrySize : Int
  tocBigEndian : Bool
  tocFieldId : Int
  tocFieldType : Int
  tocFieldTypenameAddr : Int
  tocFieldRecordAddr : Int
  resolveClassicPointers : Bool
  resolveXlbPointers : Bool
  resolveXlbStrings : Bool
deriving DecidableEq, Repr

/-- The hard-coded defaults of `MXE_SETTINGS`. -/
def defaultSettings : MxeSettings :=
  ⟨0x40, 0xC8, 0xE0, 32, false, 0, 4, 8, 16, true, true, true⟩

/-- `OUTPUT_MODIFIERS` (lines 53-58). -/
structure OutputModifiers where
  forceHex : Bool
  forceRawClassic : Bool
  forceRawXlb : Bool
  forceXlbIds : Bool
deriving DecidableEq, Repr

/-- `followAddress` (lines 277-281). -/
def followAddress (s : MxeSettings) (rawAddr : Int) : Int :=
  rawAddr + s.addressOffset

/-- One record template: type name and ordered
`(data type identifier, field name)` pairs. -/
structure Template where
  name : List Char
  fields : List (DType × List Char)
deriving DecidableEq, Repr

/-- One main-table entry: `[id, type, [typename addr, typename], record
addr, [field values]]`. -/
structure TocEntry where
  entryId : Int
  typeCode : Int
  typeNameAddr : Int
  typeName : List Char
  recordAddr : Int
  fields : List FieldVal
deriving DecidableEq, Repr

/-- `entry[2][1].split(':')[0]`: the part of the type name before any colon. -/
def typeKey (name : List Char) : List Char := name.takeWhile (fun c => c ≠ ':')

/-- `[s for s in templates if s[0] == key][0]`: the first template of that
name, `none` for the `IndexError` of an empty match. -/
def findTemplate (templates : List Template) (key : List Char) : Option Template :=
  templates.find? (fun t => t.name == key)

/-- `readZeroDelBytes` (lines 283-299): bytes up to the first zero byte.
`none` models the negative-seek `ValueError` and the non-terminating loop the
source runs into when no zero byte remains before the end of the file. -/
def readZeroDelBytes (file : Bytes) (startpos : Int) : Option Bytes :=
  if startpos < 0 then none
  else if (file.drop startpos.toNat).contains 0 then
    some ((file.drop startpos.toNat).takeWhile (fun b => b ≠ 0))
  else none

/-- `readStr` (lines 301-310): the zero-delimited bytes decoded
(shift_jisx0213, identity on the ASCII content of the theorems). -/
def readStrChars (file : Bytes) (startpos : Int) : Option (List Char) :=
  (readZeroDelBytes file startpos).map (fun bs => bs.map Char.ofNat)

/-- `struct.unpack_from(endianness + "i", buf, off)`; `none` when fewer than
four bytes remain (negative offsets, unused by the program, also fail). -/
def unpackIntFrom (big : Bool) (buf : Bytes) (off : Int) : Option Int :=
  if off < 0 then none
  else if big then bytesAsBEInt (buf.drop off.toNat)
  else bytesAsLEInt (buf.drop off.toNat)

/-! ### `readMXEFile` (lines 475-542) -/

/-- One TOC slot (lines 491-502): a 32-byte window, the four fixed-offset
integers, and the type name read through its biased address (the
back-seek restores the cursor, so the next slot starts after the window). -/
def parseTocEntry (file : Bytes) (s : MxeSettings) (pos : Int) :
    Option (TocEntry × Int) := do
  let buf := readChunk file pos s.tocEntrySize
  let a1 ← unpackIntFrom s.tocBigEndian buf s.tocFieldTypenameAddr
  let i ← unpackIntFrom s.tocBigEndian buf s.tocFieldId
  let t ← unpackIntFrom s.tocBigEndian buf s.tocFieldType
  let ra ← unpackIntFrom s.tocBigEndian buf s.tocFieldRecordAddr
  let name ← readStrChars file (followAddress s a1)
  pure (⟨i, t, a1, name, ra, []⟩, pos + buf.length)

/-- The TOC loop (step 1 of `readMXEFile`). -/
def readTocEntries (file : Bytes) (s : MxeSettings) :
    Nat → Int → Option (List TocEntry)
  | 0, _ => some []
  | n + 1, pos => do
    let (e, p2) ← parseTocEntry file s pos
    let rest ← readTocEntries file s n p2
    pure (e :: rest)

/-- The field loop of step 2 (lines 516-534): per template field, resolve a
classic or XLB pointer when its flag is on, read the raw buffer otherwise;
an identifier with no length is logged and skipped without consuming
bytes. -/
def readFields (file : Bytes) (s : MxeSettings) :
    List (DType × List Char) → Int → Option (List FieldVal)
  | [], _ => some []
  | (dt, _) :: rest, pos =>
    match DataTypes dt with
    | none => readFields file s rest pos
    | some w =>
      if (dt = .lp ∨ dt = .bp) ∧ s.resolveClassicPointers then
        match (if dt = .lp then bytesAsLEInt (readChunk file pos w)
            else bytesAsBEInt (readChunk file pos w)) with
        | none => none
        | some intAddr =>
          match readStrChars file (followAddress s intAddr) with
          | none => none
          | some v =>
            match readFields file s rest
                (pos + ((readChunk file pos w).length : Int)) with
            | none => none
            | some restVals =>
              some (.pair (readChunk file pos w) (.str v) :: restVals)
      else if (dt = .lpi ∨ dt = .bpi) ∧ s.resolveXlbPointers then
        match (if dt = .lpi then bytesAsLEInt (readChunk file pos w)
            else bytesAsBEInt (readChunk file pos w)) with
        | none => none
        | some intAddr =>
          match readZeroDelBytes file (followAddress s intAddr) with
          | none => none
          | some v =>
            match readFields file s rest
                (pos + ((readChunk file pos w).length : Int)) with
            | none => none
            | some restVals =>
              some (.pair (readChunk file pos w) (.bytes v) :: restVals)
      else
        match readFields file s rest (pos + ((readChunk file pos w).length : Int)) with
        | none => none
        | some restVals =>
          some (.raw (readChunk file pos w) :: restVals)

/-- Step 2 for one entry: template lookup by unqualified name; a missing
template is the caught `IndexError` — the entry is kept with its empty
field list. -/
def processEntry (file : Bytes) (s : MxeSettings) (templates : List Template)
    (e : TocEntry) : Option TocEntry :=
  match findTemplate templates (typeKey e.typeName) with
  | none => some e
  | some t =>
    if followAddress s e.recordAddr < 0 then none
    else (readFields file s t.fields (followAddress s e.recordAddr)).map
      (fun vals => { e with fields := vals })

/-- Step 2 over the whole table. -/
def processEntries (file : Bytes) (s : MxeSettings) (templates : List Template) :
    List TocEntry → Option (List TocEntry)
  | [] => some []
  | e :: rest => do
    let e2 ← processEntry file s templates e
    let rest2 ← processEntries file s templates rest
    pure (e2 :: rest2)

/-- `readMXEFile`: entry count, TOC start, step 1 then step 2. -/
def readMXEFile (file : Bytes) (templates : List Template) (s : MxeSettings) :
    Option (List TocEntry) := do
  let entryCount ← readIntAt file s.mainTableCountAddr
  let entryStart ← readIntAt file s.mainTableStartAddrAddr
  if followAddress s entryStart < 0 then none
  else do
    let entries ← readTocEntries file s entryCount.toNat (followAddress s entryStart)
    processEntries file s templates entries

/-! ### `writeMXEFile` (lines 544-613)

The backup copy and the debug log are file-system side effects outside the
byte-level model; the debug trace of `(entry, field, bytes)` writes is kept
as an explicit result so theorems can speak about the bytes written. -/

/-- `f.seek(pos); f.write(b)` on the whole-file image: overwrite in place,
zero-fill any gap past the end, extend when the write runs past the end. -/
def pyWriteAt (file : Bytes) (pos : Nat) (b : Bytes) : Bytes :=
  (file.take pos ++ List.replicate (pos - file.length) 0) ++ b ++
    file.drop (pos + b.length)

/-- The field loop of the write path (lines 575-603), producing the new
image and the ordered trace of `(field index, position, bytes)` writes.
A caught `IndexError` (missing value, or `b[0]` of an empty buffer) stops
the entry, keeping what was already written; `none` is the uncaught
`TypeError` of `bytearray` over a resolved pair (or `None`) in a
non-pointer slot. -/
def writeFields (s : MxeSettings) (file : Bytes) (vals : List FieldVal) :
    List (DType × List Char) → Nat → Nat → Option (Bytes × List (Nat × Nat × Bytes))
  | [], _, _ => some (file, [])
  | (dt, _) :: rest, i, pos =>
    match DataTypes dt with
    | none => writeFields s file vals rest (i + 1) pos
    | some _ =>
      if (dt = .lp ∨ dt = .bp) ∧ s.resolveClassicPointers ∨
          (dt = .lpi ∨ dt = .bpi) ∧ s.resolveXlbPointers then
        match vals[i]? with
        | none => some (file, [])
        | some (.pair a _) =>
          (writeFields s (pyWriteAt file pos a) vals rest (i + 1) (pos + a.length)).map
            (fun r => (r.1, (i, pos, a) :: r.2))
        | some (.raw b) =>
          match b with
          | [] => some (file, [])
          | h :: _ =>
            (writeFields s (pyWriteAt file pos (List.replicate h 0)) vals rest (i + 1)
              (pos + h)).map
              (fun r => (r.1, (i, pos, List.replicate h 0) :: r.2))
        | some .noneV => none
      else
        match vals[i]? with
        | none => some (file, [])
        | some (.raw b) =>
          (writeFields s (pyWriteAt file pos b) vals rest (i + 1) (pos + b.length)).map
            (fun r => (r.1, (i, pos, b) :: r.2))
        | some _ => none

/-- One entry of the write loop: a missing template is the caught
`IndexError` (entry skipped, bytes untouched); a negative seek is fatal. -/
def writeEntry (s : MxeSettings) (templates : List Template) (file : Bytes)
    (e : TocEntry) : Option (Bytes × List (Nat × Nat × Bytes)) :=
  match findTemplate templates (typeKey e.typeName) with
  | none => some (file, [])
  | some t =>
    if followAddress s e.recordAddr < 0 then none
    else writeFields s file e.fields t.fields 0 (followAddress s e.recordAddr).toNat

/-- The entry loop, tagging trace rows with the running entry index. -/
def writeEntries (s : MxeSettings) (templates : List Template) :
    Bytes → Nat → List TocEntry → Option (Bytes × List (Nat × Nat × Nat × Bytes))
  | file, _, [] => some (file, [])
  | file, n, e :: rest => do
    let (f2, tr) ← writeEntry s templates file e
    let (f3, trs) ← writeEntries s templates f2 (n + 1) rest
    pure (f3, tr.map (fun x => (n, x.1, x.2.1, x.2.2)) ++ trs)

/-- `writeMXEFile`: the in-place rewrite of the image, with the ordered
write trace. -/
def writeMXEFile (file : Bytes) (table : List TocEntry) (templates : List Template)
    (s : MxeSettings) : Option (Bytes × List (Nat × Nat × Nat × Bytes)) :=
  writeEntries s templates file 0 table


/-! ### `writeMXEtoCSV` (lines 615-695)

Only the tabular content is modelled: one exported table is the header row
plus one row per matching entry; the directory/file side effects and the
set-ordered iteration over distinct type keys are outside the byte-level
model (each output table is independent of that order). -/

/-- `'RecordId'`. -/
def recordIdChars : List Char := ['R', 'e', 'c', 'o', 'r', 'd', 'I', 'd']

/-- `'InternalName'`. -/
def internalNameChars : List Char :=
  ['I', 'n', 't', 'e', 'r', 'n', 'a', 'l', 'N', 'a', 'm', 'e']

/-- The first output row (lines 634-640): `RecordId`, `InternalName`, then
`datatype` or `datatype:fieldname` per template field. -/
def headerCells (t : Template) : List PyVal :=
  .str recordIdChars :: .str internalNameChars ::
    t.fields.map (fun f =>
      .str (if f.2 = [] then dtChars f.1 else dtChars f.1 ++ ':' :: f.2))

/-- One cell of a data row (lines 646-693): the force-hex gate, the classic
pointer rules, the XLB pointer rules, then the plain codec form.  `none`
models the uncaught exceptions of the mismatched shapes (`hex` over a
resolved pair, `unpack_from` over a list, `int` of an out-of-place value). -/
def renderCell (s : MxeSettings) (m : OutputModifiers) (xlb : List XLBSection)
    (dt : DType) (data : FieldVal) : Option PyVal :=
  if m.forceHex then
    match data with
    | .raw b => some (.str (bytesAsBEHex b))
    | _ => none
  else if dt = .lp ∨ dt = .bp then
    if m.forceRawClassic then
      match data with
      | .raw b => bytesToText b dt
      | _ => none
    else if s.resolveClassicPointers = false then
      match data with
      | .raw b => bytesToText b dt
      | _ => none
    else
      match data with
      | .pair _ v => some v
      | .raw b =>
        (match (b[1]? : Option Nat) with
          | some x => some (PyVal.int (x : Int))
          | none => none)
      | .noneV => none
  else if dt = .lpi ∨ dt = .bpi then
    if m.forceRawXlb then
      if s.resolveXlbPointers = false then
        match data with
        | .raw b => bytesToText b dt
        | _ => none
      else
        match data with
        | .pair a _ => bytesToText a dt
        | _ => none
    else if s.resolveXlbPointers = false then
      match data with
      | .raw b => bytesToText b dt
      | _ => none
    else if s.resolveXlbStrings then
      if m.forceXlbIds then
        match data with
        | .raw b => bytesToText b dt
        | _ => none
      else
        match data with
        | .pair _ (.bytes vb) =>
          if vb = [] then some (.str [])
          else
            match parseIntChars (vb.map Char.ofNat) with
            | some a =>
              match findByIDInXLB xlb a with
              | some (some rb) => some (.str (escapeLF (bytesAsStringChars rb)))
              | some none => some (.str [])
              | none => some (.str [])
            | none => some (.str (escapeLF (bytesAsStringChars vb)))
        | _ => none
    else
      match data with
      | .pair _ (.bytes vb) => some (.str (escapeLF (bytesAsStringChars vb)))
      | _ => none
  else
    match data with
    | .raw b => bytesToText b dt
    | _ => none

/-- The cell loop over `entry[4]` (lines 644-694); `template[1][i]` past the
template length is an uncaught `IndexError`. -/
def renderCells (s : MxeSettings) (m : OutputModifiers) (xlb : List XLBSection)
    (t : Template) : List FieldVal → Nat → Option (List PyVal)
  | [], _ => some []
  | data :: rest, i => do
    let tf ← t.fields[i]?
    let cell ← renderCell s m xlb tf.1 data
    let cells ← renderCells s m xlb t rest (i + 1)
    pure (cell :: cells)

/-- One data row: `[entry[0], entry[2][1], cells...]`. -/
def exportRow (s : MxeSettings) (m : OutputModifiers) (xlb : List XLBSection)
    (t : Template) (e : TocEntry) : Option (List PyVal) :=
  (renderCells s m xlb t e.fields 0).map
    (fun cs => .int e.entryId :: .str e.typeName :: cs)

/-- The data rows of one output table, in main-table order, restricted to
the entries whose unqualified type name is `templName`. -/
def exportRows (s : MxeSettings) (m : OutputModifiers) (xlb : List XLBSection)
    (t : Template) (templName : List Char) : List TocEntry → Option (List (List PyVal))
  | [] => some []
  | e :: rest =>
    if typeKey e.typeName = templName then do
      let r ← exportRow s m xlb t e
      let rs ← exportRows s m xlb t templName rest
      pure (r :: rs)
    else exportRows s m xlb t templName rest

/-- The full content of the output table `templName + ".csv"`; a missing
template is the uncaught `IndexError` of line 633. -/
def writeMXEtoCSVTable (table : List TocEntry) (templates : List Template)
    (templName : List Char) (s : MxeSettings) (m : OutputModifiers)
    (xlb : List XLBSection) : Option (List (List PyVal)) := do
  let t ← findTemplate templates templName
  let rows ← exportRows s m xlb t templName table
  pure (headerCells t :: rows)

/-! ### `applyCSVtoMXE` (lines 697-736) -/

/-- A header cell split into `(datatype, fieldname)`; only a string cell
has `.split` (anything else is an uncaught `TypeError`). -/
def headerPair (v : PyVal) : Option (List Char × List Char) :=
  match v with
  | .str sv => some (splitFirstColon sv)
  | _ => none

/-- `main_table[k]` index semantics: from the front for `k ≥ 0`, from the
back for negative `k`; `none` is the caught `IndexError`. -/
def pyIndex (len : Nat) (k : Int) : Option Nat :=
  if 0 ≤ k then (if k < (len : Int) then some k.toNat else none)
  else (if -(len : Int) ≤ k then some (len - (-k).toNat) else none)

/-- Python `!=` between a stored field value and an `objToBytes` result
(`bytes`, or `None` for an unknown identifier). -/
def eqVal (fv : FieldVal) (b : Option Bytes) : Bool :=
  match fv, b with
  | .raw b0, some b1 => b0 == b1
  | .noneV, none => true
  | _, _ => false

/-- The stored value an assignment `entry[i] = b` leaves behind. -/
def storedVal (b : Option Bytes) : FieldVal :=
  match b with
  | some bb => .raw bb
  | none => .noneV

/-- The field loop of one import row (lines 720-735).  `kOpt` is the row`s
target entry: `none` when every lookup so far was the caught out-of-range
`IndexError` — reaching the comparison then is the uncaught `NameError` of
an unbound `entry`.  A missing header column, a missing cell or a missing
stored field is the caught per-field `IndexError`; a failed parse or pack
inside `objToBytes` is fatal. -/
def applyRowFields (hdr : List (List Char × List Char)) (row : List PyVal)
    (kOpt : Option Nat) : List TocEntry → List (DType × List Char) → Nat →
    Option (List TocEntry)
  | table, [], _ => some table
  | table, (dt, _) :: rest, i =>
    match hdr[i]? with
    | none => applyRowFields hdr row kOpt table rest (i + 1)
    | some hp =>
      if hp.1 ≠ dtChars dt then applyRowFields hdr row kOpt table rest (i + 1)
      else if isPointerDT dt then applyRowFields hdr row kOpt table rest (i + 1)
      else
        match row[2 + i]? with
        | none => applyRowFields hdr row kOpt table rest (i + 1)
        | some cell =>
          match objToBytes cell dt with
          | none => none
          | some b =>
            match kOpt with
            | none => none
            | some k =>
              match table[k]? with
              | none => none
              | some e =>
                match e.fields[i]? with
                | none => applyRowFields hdr row kOpt table rest (i + 1)
                | some fv =>
                  if eqVal fv b then applyRowFields hdr row kOpt table rest (i + 1)
                  else
                    applyRowFields hdr row kOpt
                      (table.set k { e with fields := e.fields.set i (storedVal b) })
                      rest (i + 1)

/-- The entry lookup of one data row (lines 713-719): a missing first cell
keeps the stale binding, a non-numeric id is the uncaught `ValueError`, an
out-of-range id is the caught `IndexError` that also keeps the stale
binding. -/
def rowLookup (len : Nat) (lastIdx : Option Nat) (row : List PyVal) :
    Option (Option Nat) :=
  match row[0]? with
  | none => some lastIdx
  | some cell =>
    match pyInt cell with
    | none => none
    | some k =>
      match pyIndex len k with
      | none => some lastIdx
      | some k2 => some (some k2)

/-- The data-row loop (lines 711-735), carrying the template found on the
first data row and the last successfully bound `entry` reference. -/
def applyDataRows (tmpl : Template) (hdr : List (List Char × List Char)) :
    List TocEntry → Option Nat → List (List PyVal) → Option (List TocEntry)
  | table, _, [] => some table
  | table, lastIdx, row :: rest => do
    let newIdx ← rowLookup table.length lastIdx row
    let table2 ← applyRowFields hdr row newIdx table tmpl.fields 0
    applyDataRows tmpl hdr table2 newIdx rest

/-- The body of the import after header validation (lines 711-735): the
template is looked up once, from the first data row`s `InternalName`. -/
def csvBody (table : List TocEntry) (templates : List Template)
    (hdr : List (List Char × List Char)) : List (List PyVal) → Option (List TocEntry)
  | [] => some table
  | row1 :: rest => do
    let cn ← row1[1]?
    let nm ← pyStr cn
    let tmpl ← findTemplate templates (typeKey nm)
    applyDataRows tmpl hdr table none (row1 :: rest)

/-- `applyCSVtoMXE`: header validation (a bad header returns with the table
untouched), header-pair parsing, template lookup from the first data row
(`IndexError` there is uncaught), then the data rows. -/
def applyCSVtoMXE (table : List TocEntry) (templates : List Template)
    (csv : List (List PyVal)) : Option (List TocEntry) :=
  match csv with
  | [] => some table
  | row0 :: dataRows => do
    let c0 ← row0[0]?
    let c1 ← row0[1]?
    if ¬(c0 = .str recordIdChars ∧ c1 = .str internalNameChars) then some table
    else do
      let hdr ← (row0.drop 2).mapM headerPair
      csvBody table templates hdr dataRows


/-- `FORCE_HEX_OUTPUT` alone. -/
def forceHexMods : OutputModifiers := ⟨true, false, false, false⟩

/-- All output modifiers off (the defaults of `OUTPUT_MODIFIERS`). -/
def defaultMods : OutputModifiers := ⟨false, false, false, false⟩


/-- Zero-bias settings used by the concrete write examples. -/
def zeroOffsetSettings : MxeSettings := ⟨0, 0, 4, 32, false, 0, 4, 8, 16, true, true, true⟩


/-- A concrete 100-byte MXE image: entry count 2 at offset 0, TOC start 8 at
offset 4 (zero bias), two 32-byte TOC slots, the type name `A` at 72,
records at 80 and 88 (an `<i` field and a `<p` pointer to the string at 96). -/
def fileGood : Bytes :=
  [2, 0, 0, 0, 8, 0, 0, 0, 0, 0, 0, 0, 7, 0, 0, 0, 72, 0, 0, 0, 0, 0, 0, 0,
   80, 0, 0, 0, 0, 0, 0, 0, 0, 0, 0, 0, 0, 0, 0, 0, 1, 0, 0, 0, 7, 0, 0, 0,
   72, 0, 0, 0, 0, 0, 0, 0, 88, 0, 0, 0, 0, 0, 0, 0, 0, 0, 0, 0, 0, 0, 0, 0,
   65, 0, 0, 0, 0, 0, 0, 0, 5, 0, 0, 0, 96, 0, 0, 0, 9, 0, 0, 0, 96, 0, 0, 0,
   104, 0, 0, 0]

/-- `fileGood` with the two TOC ids swapped (ids 1 and 0 at indices 0 and 1). -/
def fileSwap : Bytes :=
  [2, 0, 0, 0, 8, 0, 0, 0, 1, 0, 0, 0, 7, 0, 0, 0, 72, 0, 0, 0, 0, 0, 0, 0,
   80, 0, 0, 0, 0, 0, 0, 0, 0, 0, 0, 0, 0, 0, 0, 0, 0, 0, 0, 0, 7, 0, 0, 0,
   72, 0, 0, 0, 0, 0, 0, 0, 88, 0, 0, 0, 0, 0, 0, 0, 0, 0, 0, 0, 0, 0, 0, 0,
   65, 0, 0, 0, 0, 0, 0, 0, 5, 0, 0, 0, 96, 0, 0, 0, 9, 0, 0, 0, 96, 0, 0, 0,
   104, 0, 0, 0]

/-- Template `A`: one `<i` field named `x`, one `<p` pointer. -/
def tA4 : Template := ⟨['A'], [(.li, ['x']), (.lp, [])]⟩

/-- Template `B`: two `<i` fields (same byte span as `A`). -/
def tB : Template := ⟨['B'], [(.li, []), (.li, [])]⟩

/-- The table `readMXEFile fileGood [tA4, tB] zeroOffsetSettings` yields. -/
def tableGood : List TocEntry :=
  [⟨0, 7, 72, ['A'], 80, [.raw [5, 0, 0, 0], .pair [96, 0, 0, 0] (.str ['h'])]⟩,
   ⟨1, 7, 72, ['A'], 88, [.raw [9, 0, 0, 0], .pair [96, 0, 0, 0] (.str ['h'])]⟩]

/-- The table `readMXEFile fileSwap [tA4, tB] zeroOffsetSettings` yields. -/
def tableSwap : List TocEntry :=
  [⟨1, 7, 72, ['A'], 80, [.raw [5, 0, 0, 0], .pair [96, 0, 0, 0] (.str ['h'])]⟩,
   ⟨0, 7, 72, ['A'], 88, [.raw [9, 0, 0, 0], .pair [96, 0, 0, 0] (.str ['h'])]⟩]


/-- The pointer kinds that carry a `[raw, resolved]` pair under the given
resolution flags (exactly the conditions of lines 519/525 and 581/586). -/
def ptrResolved (s : MxeSettings) (dt : DType) : Prop :=
  (dt = .lp ∨ dt = .bp) ∧ s.resolveClassicPointers ∨
    (dt = .lpi ∨ dt = .bpi) ∧ s.resolveXlbPointers

instance (s : MxeSettings) (dt : DType) : Decidable (ptrResolved s dt) := by
  unfold ptrResolved; infer_instance

/-- Field-list shape of an entry against its template, as `readMXEFile`
produces it: aligned lengths, a `[raw, resolved]` pair exactly at the
resolved-pointer positions, a raw buffer elsewhere. -/
def entryShape (s : MxeSettings) (t : Template) (e : TocEntry) : Prop :=
  e.fields.length = t.fields.length ∧
  ∀ (j : Nat) (dt : DType) (nm : List Char), t.fields[j]? = some (dt, nm) →
    (ptrResolved s dt → ∃ a v, e.fields[j]? = some (.pair a v)) ∧
    (¬ ptrResolved s dt → ∃ b, e.fields[j]? = some (.raw b))

/-- The template `applyCSVtoMXE` applies: the one named by the first data
row's `InternalName` (line 713-714). -/
def csvTemplate (templates : List Template) (csv : List (List PyVal)) :
    Option Template :=
  match csv with
  | _ :: row1 :: _ =>
    (match row1[1]? with
      | some c =>
        (match pyStr c with
          | some nm => findTemplate templates (typeKey nm)
          | none => none)
      | none => none)
  | _ => none

/-- The entry index an import row binds, when its lookup succeeds. -/
def rowBound (len : Nat) (row : List PyVal) : Option Nat :=
  match row[0]? with
  | none => none
  | some cell =>
    match pyInt cell with
    | none => none
    | some k => pyIndex len k

/-- `tableGood` after the type-confused import of `csvConfu`: the pointer
pair of entry 0 has been replaced by plain bytes. -/
def tableConfu : List TocEntry :=
  [⟨0, 7, 72, ['A'], 80, [.raw [5, 0, 0, 0], .raw [77, 0, 0, 0]]⟩,
   ⟨1, 7, 72, ['A'], 88, [.raw [9, 0, 0, 0], .pair [96, 0, 0, 0] (.str ['h'])]⟩]

/-- A CSV that names record type `B` but targets entry 0 (of type `A`):
its second `<i` column overlays entry 0's pointer field. -/
def csvConfu : List (List PyVal) :=
  [[.str recordIdChars, .str internalNameChars, .str ['<', 'i'], .str ['<', 'i']],
   [.int 0, .str ['B'], .int 5, .int 77]]

/-- One decoded cell whose codec round-trips exactly: decoding the stored
bytes and re-encoding the decoded value restores the same bytes (the
proviso of the export/import round-trip). -/
def codecRoundTrips (dt : DType) (b : Bytes) : Prop :=
  ∃ cell, bytesToText b dt = some cell ∧ objToBytes cell dt = some (some b)

/-- What one pass of the import field loop (from template position `i` on)
can do to the table: lengths and entry metadata are untouched, every stored
field is either untouched or a plain byte buffer, and a field at a position
the loop cannot reach - before `i`, or pointer-typed in the loop's template
at every matching offset - is untouched. -/
def importFrame (tfs : List (DType × List Char)) (i : Nat)
    (table out : List TocEntry) : Prop :=
  out.length = table.length ∧
  ∀ (n : Nat) (e : TocEntry), table[n]? = some e →
    ∃ e2, out[n]? = some e2 ∧ e2.entryId = e.entryId ∧ e2.typeCode = e.typeCode ∧
      e2.typeNameAddr = e.typeNameAddr ∧ e2.typeName = e.typeName ∧
      e2.recordAddr = e.recordAddr ∧ e2.fields.length = e.fields.length ∧
      ∀ j : Nat,
        (e2.fields[j]? = e.fields[j]? ∨ ∃ bb, e2.fields[j]? = some (FieldVal.raw bb)) ∧
        ((j < i ∨ ∀ q : DType × List Char, tfs[j - i]? = some q →
            isPointerDT q.1 = true) →
          e2.fields[j]? = e.fields[j]?)

/-- The tabular export of `tableGood` for type name `A` (zero-bias settings,
no output modifiers). -/
def csvOutGood : List (List PyVal) :=
  [[.str recordIdChars, .str internalNameChars, .str ['<', 'i', ':', 'x'],
    .str ['<', 'p']],
   [.int 0, .str ['A'], .int 5, .str ['h']],
   [.int 1, .str ['A'], .int 9, .str ['h']]]

/-- The tabular export of `tableSwap` for type name `A`: the `RecordId`
column carries the swapped TOC ids `1, 0`. -/
def csvOutSwap : List (List PyVal) :=
  [[.str recordIdChars, .str internalNameChars, .str ['<', 'i', ':', 'x'],
    .str ['<', 'p']],
   [.int 1, .str ['A'], .int 5, .str ['h']],
   [.int 0, .str ['A'], .int 9, .str ['h']]]

/-- `tableSwap` after importing its own export: each row is applied to the
entry *indexed* by its `RecordId`, so the two `<i` fields are exchanged. -/
def tableCross : List TocEntry :=
  [⟨1, 7, 72, ['A'], 80, [.raw [9, 0, 0, 0], .pair [96, 0, 0, 0] (.str ['h'])]⟩,
   ⟨0, 7, 72, ['A'], 88, [.raw [5, 0, 0, 0], .pair [96, 0, 0, 0] (.str ['h'])]⟩]

/-- The value shape `writeFields` needs from template position `i` on: a
known record length, a `[raw, resolved]` pair exactly at the
resolved-pointer slots and a plain buffer elsewhere (what `readMXEFile`
stores and a pointer-compatible import preserves). -/
def fieldShape (s : MxeSettings) (vals : List FieldVal)
    (tfs : List (DType × List Char)) (i : Nat) : Prop :=
  ∀ (k : Nat) (dt : DType) (nm : List Char), tfs[k]? = some (dt, nm) →
    DataTypes dt ≠ none ∧
    (ptrResolved s dt → ∃ a v, vals[i + k]? = some (FieldVal.pair a v)) ∧
    (¬ ptrResolved s dt → ∃ b, vals[i + k]? = some (FieldVal.raw b))

/-! ## Theorems -/

/-! ### Round-trip lemmas for the integer and hex codecs -/

theorem hexChar_facts : ∀ n < 16, hexChar n ≠ '-' ∧ hexChar n ≠ 'x' ∧
    hexVal (hexChar n) = some n := by decide

theorem leIntAsBytes_after_read (b0 b1 b2 b3 : Nat) (h0 : b0 < 256)
    (h1 : b1 < 256) (h2 : b2 < 256) (h3 : b3 < 256) :
    (bytesAsLEInt [b0, b1, b2, b3]).bind leIntAsBytes = some [b0, b1, b2, b3] := by
  rcases Nat.lt_or_ge (b0 + 256 * b1 + 65536 * b2 + 16777216 * b3) 2147483648 with hu | hu
  · have hr : bytesAsLEInt [b0, b1, b2, b3] =
        some ((b0 + 256 * b1 + 65536 * b2 + 16777216 * b3 : Nat) : Int) := by
      simp only [bytesAsLEInt]
      rw [if_pos hu]
    rw [hr, Option.some_bind, leIntAsBytes, if_pos (by constructor <;> omega)]
    simp only [Option.some.injEq, List.cons.injEq, and_true]
    refine ⟨?_, ?_, ?_, ?_⟩ <;> omega
  · have hr : bytesAsLEInt [b0, b1, b2, b3] =
        some (((b0 + 256 * b1 + 65536 * b2 + 16777216 * b3 : Nat) : Int) - 4294967296) := by
      simp only [bytesAsLEInt]
      rw [if_neg (by omega)]
    rw [hr, Option.some_bind, leIntAsBytes, if_pos (by constructor <;> omega)]
    simp only [Option.some.injEq, List.cons.injEq, and_true]
    refine ⟨?_, ?_, ?_, ?_⟩ <;> omega

theorem beIntAsBytes_after_read (b0 b1 b2 b3 : Nat) (h0 : b0 < 256)
    (h1 : b1 < 256) (h2 : b2 < 256) (h3 : b3 < 256) :
    (bytesAsBEInt [b0, b1, b2, b3]).bind beIntAsBytes = some [b0, b1, b2, b3] := by
  rcases Nat.lt_or_ge (b3 + 256 * b2 + 65536 * b1 + 16777216 * b0) 2147483648 with hu | hu
  · have hr : bytesAsBEInt [b0, b1, b2, b3] =
        some ((b3 + 256 * b2 + 65536 * b1 + 16777216 * b0 : Nat) : Int) := by
      simp only [bytesAsBEInt]
      rw [if_pos hu]
    rw [hr, Option.some_bind, beIntAsBytes, if_pos (by constructor <;> omega)]
    simp only [Option.some.injEq, List.cons.injEq, and_true]
    refine ⟨?_, ?_, ?_, ?_⟩ <;> omega
  · have hr : bytesAsBEInt [b0, b1, b2, b3] =
        some (((b3 + 256 * b2 + 65536 * b1 + 16777216 * b0 : Nat) : Int) - 4294967296) := by
      simp only [bytesAsBEInt]
      rw [if_neg (by omega)]
    rw [hr, Option.some_bind, beIntAsBytes, if_pos (by constructor <;> omega)]
    simp only [Option.some.injEq, List.cons.injEq, and_true]
    refine ⟨?_, ?_, ?_, ?_⟩ <;> omega

theorem strip0x_of_no_x (l : List Char) (h : 'x' ∉ l) : strip0x l = l := by
  induction l with
  | nil => rfl
  | cons c rest ih =>
    match rest with
    | [] => rfl
    | c2 :: rest2 =>
      have hc2 : c2 ≠ 'x' := fun e => h (by simp [e])
      rw [strip0x, if_neg (fun hp => hc2 hp.2)]
      rw [ih (fun hm => h (List.mem_cons_of_mem _ hm))]

/-- Fully explicit display of a four-byte buffer, with hyphens removed and
the `0x` marker stripped: just the eight digits. -/
theorem hex_digits_of_four (a0 a1 a2 a3 : Nat) (h0 : a0 < 256) (h1 : a1 < 256)
    (h2 : a2 < 256) (h3 : a3 < 256) :
    strip0x (stripHyphens
      ((['0', 'x'] ++ [a0, a1, a2, a3].flatMap (fun b => byteHexPair b ++ ['-'])).dropLast)) =
      [hexChar (a0 / 16), hexChar (a0 % 16), hexChar (a1 / 16), hexChar (a1 % 16),
       hexChar (a2 / 16), hexChar (a2 % 16), hexChar (a3 / 16), hexChar (a3 % 16)] := by
  have key : ∀ n < 16, hexChar n ≠ '-' ∧ hexChar n ≠ 'x' ∧
      hexVal (hexChar n) = some n := hexChar_facts
  have d0 : a0 / 16 < 16 := by omega
  have d1 : a1 / 16 < 16 := by omega
  have d2 : a2 / 16 < 16 := by omega
  have d3 : a3 / 16 < 16 := by omega
  have m0 : a0 % 16 < 16 := Nat.mod_lt _ (by omega)
  have m1 : a1 % 16 < 16 := Nat.mod_lt _ (by omega)
  have m2 : a2 % 16 < 16 := Nat.mod_lt _ (by omega)
  have m3 : a3 % 16 < 16 := Nat.mod_lt _ (by omega)
  have shape : (['0', 'x'] ++ [a0, a1, a2, a3].flatMap (fun b => byteHexPair b ++ ['-'])).dropLast =
      ['0', 'x', hexChar (a0 / 16), hexChar (a0 % 16), '-', hexChar (a1 / 16), hexChar (a1 % 16), '-',
       hexChar (a2 / 16), hexChar (a2 % 16), '-', hexChar (a3 / 16), hexChar (a3 % 16)] := by
    show (['0', 'x', hexChar (a0 / 16), hexChar (a0 % 16), '-', hexChar (a1 / 16), hexChar (a1 % 16),
      '-', hexChar (a2 / 16), hexChar (a2 % 16), '-', hexChar (a3 / 16), hexChar (a3 % 16)]
        ++ ['-']).dropLast = _
    rw [List.dropLast_concat]
  rw [shape]
  have fil : stripHyphens
      ['0', 'x', hexChar (a0 / 16), hexChar (a0 % 16), '-', hexChar (a1 / 16), hexChar (a1 % 16), '-',
       hexChar (a2 / 16), hexChar (a2 % 16), '-', hexChar (a3 / 16), hexChar (a3 % 16)] =
      ['0', 'x', hexChar (a0 / 16), hexChar (a0 % 16), hexChar (a1 / 16), hexChar (a1 % 16),
       hexChar (a2 / 16), hexChar (a2 % 16), hexChar (a3 / 16), hexChar (a3 % 16)] := by
    simp [stripHyphens, List.filter,
      (key _ d0).1, (key _ m0).1, (key _ d1).1, (key _ m1).1,
      (key _ d2).1, (key _ m2).1, (key _ d3).1, (key _ m3).1]
  rw [fil]
  have nox : 'x' ∉ [hexChar (a0 / 16), hexChar (a0 % 16), hexChar (a1 / 16), hexChar (a1 % 16),
      hexChar (a2 / 16), hexChar (a2 % 16), hexChar (a3 / 16), hexChar (a3 % 16)] := by
    intro hm
    simp only [List.mem_cons, List.not_mem_nil, or_false] at hm
    rcases hm with e | e | e | e | e | e | e | e <;>
      first
        | exact (key _ d0).2.1 e.symm | exact (key _ m0).2.1 e.symm
        | exact (key _ d1).2.1 e.symm | exact (key _ m1).2.1 e.symm
        | exact (key _ d2).2.1 e.symm | exact (key _ m2).2.1 e.symm
        | exact (key _ d3).2.1 e.symm | exact (key _ m3).2.1 e.symm
  rw [strip0x, if_pos ⟨rfl, rfl⟩, strip0x_of_no_x _ nox]

theorem hexPairs_of_digits (a0 a1 a2 a3 : Nat) (h0 : a0 < 256) (h1 : a1 < 256)
    (h2 : a2 < 256) (h3 : a3 < 256) :
    hexPairsToBytes
      [hexChar (a0 / 16), hexChar (a0 % 16), hexChar (a1 / 16), hexChar (a1 % 16),
       hexChar (a2 / 16), hexChar (a2 % 16), hexChar (a3 / 16), hexChar (a3 % 16)] =
      some [a0, a1, a2, a3] := by
  have key : ∀ n < 16, hexChar n ≠ '-' ∧ hexChar n ≠ 'x' ∧
      hexVal (hexChar n) = some n := hexChar_facts
  rw [hexPairsToBytes, (key _ (by omega : a0 / 16 < 16)).2.2,
    (key _ (Nat.mod_lt _ (by omega) : a0 % 16 < 16)).2.2]
  rw [hexPairsToBytes, (key _ (by omega : a1 / 16 < 16)).2.2,
    (key _ (Nat.mod_lt _ (by omega) : a1 % 16 < 16)).2.2]
  rw [hexPairsToBytes, (key _ (by omega : a2 / 16 < 16)).2.2,
    (key _ (Nat.mod_lt _ (by omega) : a2 % 16 < 16)).2.2]
  rw [hexPairsToBytes, (key _ (by omega : a3 / 16 < 16)).2.2,
    (key _ (Nat.mod_lt _ (by omega) : a3 % 16 < 16)).2.2]
  have e0 : 16 * (a0 / 16) + a0 % 16 = a0 := by omega
  have e1 : 16 * (a1 / 16) + a1 % 16 = a1 := by omega
  have e2 : 16 * (a2 / 16) + a2 % 16 = a2 := by omega
  have e3 : 16 * (a3 / 16) + a3 % 16 = a3 := by omega
  simp [hexPairsToBytes, e0, e1, e2, e3]

/-- C10 (claim theorem below instantiates this): the big-endian display
re-encodes to the original buffer, the little-endian display re-encodes to
the reversed buffer. -/
theorem hex_roundTrip_core (b0 b1 b2 b3 : Nat) (h0 : b0 < 256) (h1 : b1 < 256)
    (h2 : b2 < 256) (h3 : b3 < 256) :
    beHexAsBytes (bytesAsBEHex [b0, b1, b2, b3]) = some [b0, b1, b2, b3] ∧
    leHexAsBytes (bytesAsLEHex [b0, b1, b2, b3]) = some [b3, b2, b1, b0] := by
  constructor
  · rw [beHexAsBytes, bytesAsBEHex, hex_digits_of_four b0 b1 b2 b3 h0 h1 h2 h3,
      hexPairs_of_digits b0 b1 b2 b3 h0 h1 h2 h3]
    show (if ([b0, b1, b2, b3] : Bytes).length = 4
        then (bytesAsBEInt [b0, b1, b2, b3]).bind beIntAsBytes else none) = some [b0, b1, b2, b3]
    rw [if_pos (show ([b0, b1, b2, b3] : Bytes).length = 4 from rfl)]
    exact beIntAsBytes_after_read b0 b1 b2 b3 h0 h1 h2 h3
  · have hrev : ([b0, b1, b2, b3] : Bytes).reverse = [b3, b2, b1, b0] := rfl
    rw [leHexAsBytes, bytesAsLEHex, hrev, hex_digits_of_four b3 b2 b1 b0 h3 h2 h1 h0,
      hexPairs_of_digits b3 b2 b1 b0 h3 h2 h1 h0]
    show (if ([b3, b2, b1, b0] : Bytes).length = 4
        then (bytesAsLEInt [b3, b2, b1, b0]).bind leIntAsBytes else none) = some [b3, b2, b1, b0]
    rw [if_pos (show ([b3, b2, b1, b0] : Bytes).length = 4 from rfl)]
    exact leIntAsBytes_after_read b3 b2 b1 b0 h3 h2 h1 h0

/-! ### XLB support lemmas -/

theorem modifyAt_get {α : Type} (f : α → α) (n m : Nat) (l : List α) :
    (modifyAt f n l)[m]? = if m = n then l[n]?.map f else l[m]? := by
  induction l generalizing n m with
  | nil => cases n <;> cases m <;> simp [modifyAt]
  | cons a l ih =>
    cases n with
    | zero => cases m <;> simp [modifyAt]
    | succ n =>
      cases m with
      | zero => simp [modifyAt]
      | succ m => simpa [modifyAt] using ih n m

theorem readXLBSkeleton_payload_none (file : Bytes) (rs : Int) :
    ∀ (n : Nat) (pos : Int) (recs : List (Int × Option Bytes)) (pend : Int),
      readXLBSkeleton file rs n pos = some (recs, pend) →
      ∀ rec ∈ recs, rec.2 = none := by
  intro n
  induction n with
  | zero =>
    intro pos recs pend h rec hm
    simp only [readXLBSkeleton, Option.some.injEq, Prod.mk.injEq] at h
    rw [← h.1] at hm
    simp at hm
  | succ n ih =>
    intro pos recs pend h rec hm
    rw [readXLBSkeleton] at h
    cases hid : readIntAt file pos with
    | none => rw [hid] at h; simp at h
    | some id0 =>
      rw [hid] at h
      simp only [Option.bind_eq_bind, Option.some_bind] at h
      by_cases hp : pos + rs < 0
      · rw [if_pos hp] at h
        simp at h
      · rw [if_neg hp] at h
        cases hrec : readXLBSkeleton file rs n (pos + rs) with
        | none => rw [hrec] at h; simp at h
        | some pr =>
          obtain ⟨rest, pend2⟩ := pr
          rw [hrec] at h
          simp only [Option.bind_eq_bind, Option.some_bind, Option.pure_def, Option.some.injEq,
            Prod.mk.injEq] at h
          rw [← h.1] at hm
          rcases List.mem_cons.mp hm with he | he
          · rw [he]
          · exact ih (pos + rs) rest pend2 hrec rec he

theorem readXLBSections_payload_none (file : Bytes) :
    ∀ (n : Nat) (pos : Int) (data : List XLBSection) (pend : Int),
      readXLBSections file n pos = some (data, pend) →
      ∀ s ∈ data, ∀ rec ∈ s.records, rec.2 = none := by
  intro n
  induction n with
  | zero =>
    intro pos data pend h s hs
    simp only [readXLBSections, Option.some.injEq, Prod.mk.injEq] at h
    rw [← h.1] at hs
    simp at hs
  | succ n ih =>
    intro pos data pend h s hs rec hm
    rw [readXLBSections] at h
    cases h1 : readIntAt file pos with
    | none => rw [h1] at h; simp at h
    | some recordSize =>
      rw [h1] at h
      cases h2 : readIntAt file (pos + 4) with
      | none => rw [h2] at h; simp at h
      | some recordCount =>
        rw [h2] at h
        cases h3 : readIntAt file (pos + 8) with
        | none => rw [h3] at h; simp at h
        | some descrLen =>
          rw [h3] at h
          simp only [Option.bind_eq_bind, Option.some_bind] at h
          cases h4 : readXLBSkeleton file recordSize recordCount.toNat
              (pos + 12 + (readChunk file (pos + 12) descrLen).length) with
          | none => rw [h4] at h; simp at h
          | some pr =>
            obtain ⟨recs, p2⟩ := pr
            rw [h4] at h
            simp only [Option.bind_eq_bind, Option.some_bind] at h
            cases h5 : readXLBSections file n p2 with
            | none => rw [h5] at h; simp at h
            | some pr2 =>
              obtain ⟨rest, pend2⟩ := pr2
              rw [h5] at h
              simp only [Option.bind_eq_bind, Option.some_bind, Option.pure_def, Option.some.injEq,
                Prod.mk.injEq] at h
              rw [← h.1] at hs
              rcases List.mem_cons.mp hs with he | he
              · rw [he] at hm
                exact readXLBSkeleton_payload_none file recordSize _ _ _ _ h4 rec hm
              · exact ih p2 rest pend2 h5 s he rec hm

/-! ### Claims C3, C6, C7 -/

/-- C3 (amended): a mismatched four-byte marker after the XLB header phase
does not abort the parse; `readXLB` reports the cause and returns the
header-phase container unchanged, every payload slot still unfilled. -/
theorem readXLB_marker_mismatch_keeps_container (file : Bytes) (typeCount : Int)
    (data : List XLBSection) (pos : Int)
    (h1 : readIntAt file 4 = some typeCount)
    (h2 : readXLBSections file typeCount.toNat 16 = some (data, pos))
    (hm : dropTrailingZeros (readChunk file pos 4) ≠ chnkTag) :
    readXLB file = some data ∧ ∀ s ∈ data, ∀ rec ∈ s.records, rec.2 = none := by
  constructor
  · rw [readXLB, h1]
    simp only [Option.bind_eq_bind, Option.some_bind]
    rw [h2]
    simp only [Option.bind_eq_bind, Option.some_bind]
    rw [if_pos hm]
    rfl
  · exact readXLBSections_payload_none file typeCount.toNat 16 data pos h2

/-- C3 counterexample: on the concrete image whose marker reads `ABCD`,
`readXLB` does not fail; it yields the container whose single payload slot
is unfilled, contradicting the claimed whole-container abort. -/
theorem readXLB_bad_marker_counterexample :
    readXLB xlbBadMarkerFile = some [⟨16, 1, 0, [], [(48, none)]⟩] := by decide

/-- Witness for `readXLB_marker_mismatch_keeps_container`. -/
theorem readXLB_marker_mismatch_keeps_container_witness :
    readIntAt xlbBadMarkerFile 4 = some 1 ∧
    readXLBSections xlbBadMarkerFile (1 : Int).toNat 16 =
      some ([⟨16, 1, 0, [], [(48, none)]⟩], 44) ∧
    dropTrailingZeros (readChunk xlbBadMarkerFile 44 4) ≠ chnkTag ∧
    (readXLB xlbBadMarkerFile = some [⟨16, 1, 0, [], [(48, none)]⟩] ∧
      ∀ s ∈ [(⟨16, 1, 0, [], [(48, none)]⟩ : XLBSection)],
        ∀ rec ∈ s.records, rec.2 = none) :=
  ⟨by decide, by decide, by decide,
    readXLB_marker_mismatch_keeps_container xlbBadMarkerFile 1
      [⟨16, 1, 0, [], [(48, none)]⟩] 44 (by decide) (by decide) (by decide)⟩

/-- C6 counterexample: having entered section 1 with slot 7
(= delta 10 − emptyLeft 0 − 3), the parser's re-check iteration computes
slot 7 − (1 − 1) − 3 = 4 in section 2, whereas the claim's update
`currentSlot -= (recordCount(currentSection) − 1) − 3` would give
7 − ((1 − 1) − 3) = 10 ≠ 4. -/
theorem xlb_carryover_formula_counterexample :
    boundaryStep dataC6 0 1 10 0 160 = (2, 4) ∧
    skipEmptyLoop dataC6 4 1 7 = (2, 4) ∧
    secCount dataC6 1 = 1 ∧
    (7 - ((secCount dataC6 1 - 1) - 3) : Int) = 10 ∧
    (4 : Int) ≠ 10 := by decide

/-- C6 (amended): at a section boundary with no anomaly-table override the
parser advances one section with `currentSlot = delta − emptyLeft − 3`, and
while the slot still exceeds the section's record count it subtracts
`recordCount − 1` and then 3 more (left-associated,
`currentSlot − (recordCount − 1) − 3`) per skipped section. -/
theorem xlb_boundary_step_rule (data : List XLBSection) (h r add prev id2 : Int)
    (hadd : (id2 - prev).fdiv 16 = add)
    (hb : secCount data h ≤ r + add)
    (hc : applyCrutch prev id2 (add - (secCount data h - 1 - r) - 3) =
      add - (secCount data h - 1 - r) - 3) :
    placeStep data h r prev id2 =
      skipEmptyLoop data (data.length + 1) (h + 1)
        (add - (secCount data h - 1 - r) - 3) ∧
    (∀ fuel hh rr, rr ≤ secCount data hh →
      skipEmptyLoop data (fuel + 1) hh rr = (hh, rr)) ∧
    (∀ fuel hh rr, secCount data hh < rr →
      skipEmptyLoop data (fuel + 1) hh rr =
        skipEmptyLoop data fuel (hh + 1) (rr - (secCount data hh - 1) - 3)) := by
  refine ⟨?_, ?_, ?_⟩
  · simp only [placeStep, hadd, boundaryStep]
    rw [if_neg (by omega), hc]
  · intro fuel hh rr hle
    rw [skipEmptyLoop, if_neg (by omega)]
  · intro fuel hh rr hlt
    rw [skipEmptyLoop, if_pos hlt]

/-- Witness for `xlb_boundary_step_rule`. -/
theorem xlb_boundary_step_rule_witness :
    ((160 : Int) - 0).fdiv 16 = 10 ∧
    secCount dataC6 0 ≤ 1 + 10 ∧
    applyCrutch 0 160 (10 - (secCount dataC6 0 - 1 - 1) - 3) =
      10 - (secCount dataC6 0 - 1 - 1) - 3 ∧
    placeStep dataC6 0 1 0 160 =
      skipEmptyLoop dataC6 (dataC6.length + 1) (0 + 1)
        (10 - (secCount dataC6 0 - 1 - 1) - 3) :=
  ⟨by decide, by decide, by decide,
    (xlb_boundary_step_rule dataC6 0 1 10 0 160 (by decide) (by decide) (by decide)).1⟩

/-- C7: the first payload record seeds section 0 at slot `(key − 48)/16`; a
record whose `currentSlot + delta` stays below the record count advances by
`delta` within the section; and the key sequence 48, 64, 80 inside one
section of capacity at least 3 lands in slots 0, 1, 2. -/
theorem xlb_sequential_placement :
    (∀ data h r prev id2, r + (id2 - prev).fdiv 16 < secCount data h →
      placeStep data h r prev id2 = (h, r + (id2 - prev).fdiv 16)) ∧
    (∀ (sz cnt dl : Int) (d : Bytes) (recs : List (Int × Option Bytes))
      (b0 b1 b2 : Bytes) (e0 e1 e2 : Int × Option Bytes),
      3 ≤ cnt → (recs.length : Int) = cnt →
      recs[0]? = some e0 → recs[1]? = some e1 → recs[2]? = some e2 →
      ∃ sec,
        (placeFromFirst [⟨sz, cnt, dl, d, recs⟩] 48 b0 [(64, b1), (80, b2)])[0]? =
          some sec ∧
        sec.records[0]? = some (e0.1, some b0) ∧
        sec.records[1]? = some (e1.1, some b1) ∧
        sec.records[2]? = some (e2.1, some b2)) := by
  constructor
  · intro data h r prev id2 hlt
    simp only [placeStep]
    rw [if_pos hlt]
  · intro sz cnt dl d recs b0 b1 b2 e0 e1 e2 hcnt hlen h0 h1 h2
    have hf0 : ((48 : Int) - 48).fdiv 16 = 0 := by decide
    have hf1 : ((64 : Int) - 48).fdiv 16 = 1 := by decide
    have hf2 : ((80 : Int) - 64).fdiv 16 = 1 := by decide
    have hs0 : storePayload [⟨sz, cnt, dl, d, recs⟩] 0 0 b0 =
        [⟨sz, cnt, dl, d, modifyAt (fun rec => (rec.1, some b0)) 0 recs⟩] := by
      simp [storePayload, pyModify, modifyAt]
    have hstep1 : placeStep
        [⟨sz, cnt, dl, d, modifyAt (fun rec => (rec.1, some b0)) 0 recs⟩] 0 0 48 64 =
        (0, 1) := by
      simp only [placeStep, hf1]
      rw [show secCount [⟨sz, cnt, dl, d,
        modifyAt (fun rec => (rec.1, some b0)) 0 recs⟩] 0 = cnt from rfl]
      rw [if_pos (show (0 : Int) + 1 < cnt by omega)]
      norm_num
    have hs1 : storePayload
        [⟨sz, cnt, dl, d, modifyAt (fun rec => (rec.1, some b0)) 0 recs⟩] 0 1 b1 =
        [⟨sz, cnt, dl, d, modifyAt (fun rec => (rec.1, some b1)) 1
          (modifyAt (fun rec => (rec.1, some b0)) 0 recs)⟩] := by
      simp [storePayload, pyModify, modifyAt]
    have hstep2 : placeStep
        [⟨sz, cnt, dl, d, modifyAt (fun rec => (rec.1, some b1)) 1
          (modifyAt (fun rec => (rec.1, some b0)) 0 recs)⟩] 0 1 64 80 = (0, 2) := by
      simp only [placeStep, hf2]
      rw [show secCount [⟨sz, cnt, dl, d,
        modifyAt (fun rec => (rec.1, some b1)) 1
          (modifyAt (fun rec => (rec.1, some b0)) 0 recs)⟩] 0 = cnt from rfl]
      rw [if_pos (show (1 : Int) + 1 < cnt by omega)]
      norm_num
    have hs2 : storePayload
        [⟨sz, cnt, dl, d, modifyAt (fun rec => (rec.1, some b1)) 1
          (modifyAt (fun rec => (rec.1, some b0)) 0 recs)⟩] 0 2 b2 =
        [⟨sz, cnt, dl, d, modifyAt (fun rec => (rec.1, some b2)) 2
          (modifyAt (fun rec => (rec.1, some b1)) 1
            (modifyAt (fun rec => (rec.1, some b0)) 0 recs))⟩] := by
      simp [storePayload, pyModify, modifyAt]
    refine ⟨⟨sz, cnt, dl, d, modifyAt (fun rec => (rec.1, some b2)) 2
      (modifyAt (fun rec => (rec.1, some b1)) 1
        (modifyAt (fun rec => (rec.1, some b0)) 0 recs))⟩, ?_, ?_, ?_, ?_⟩
    · rw [placeFromFirst, hf0, hs0]
      simp only [placeAll]
      rw [hstep1]
      simp only []
      rw [hs1, hstep2]
      simp only []
      rw [hs2]
      rfl
    · simp [modifyAt_get, h0]
    · simp [modifyAt_get, h1]
    · simp [modifyAt_get, h2]

/-- Witness for `xlb_sequential_placement`. -/
theorem xlb_sequential_placement_witness :
    (3 : Int) ≤ 3 ∧
    (∃ sec, (placeFromFirst [⟨16, 3, 0, [], [(48, none), (64, none), (80, none)]⟩]
        48 [1] [(64, [2]), (80, [3])])[0]? = some sec ∧
      sec.records[0]? = some (48, some [1]) ∧
      sec.records[1]? = some (64, some [2]) ∧
      sec.records[2]? = some (80, some [3])) :=
  ⟨by decide, xlb_sequential_placement.2 16 3 0 [] [(48, none), (64, none), (80, none)]
    [1] [2] [3] (48, none) (64, none) (80, none) (by decide) (by decide) rfl rfl rfl⟩

/-! ### Claim C10 -/

/-- C10: for every four-byte buffer, re-encoding the big-endian hex display
is the identity, while re-encoding the little-endian hex display returns the
buffer with its byte order reversed — hence not the buffer itself whenever
the buffer is not a palindrome. -/
theorem hex_display_roundTrip (b : Bytes) (h4 : b.length = 4) (hb : ByteOk b) :
    beHexAsBytes (bytesAsBEHex b) = some b ∧
    leHexAsBytes (bytesAsLEHex b) = some b.reverse ∧
    (b.reverse ≠ b → leHexAsBytes (bytesAsLEHex b) ≠ some b) := by
  match b, h4 with
  | [b0, b1, b2, b3], _ =>
    have h0 := hb b0 (by simp)
    have h1 := hb b1 (by simp)
    have h2 := hb b2 (by simp)
    have h3 := hb b3 (by simp)
    obtain ⟨hbe, hle⟩ := hex_roundTrip_core b0 b1 b2 b3 h0 h1 h2 h3
    refine ⟨hbe, ?_, ?_⟩
    · rw [hle]
      rfl
    · intro hne hcontra
      apply hne
      rw [hle] at hcontra
      have : ([b3, b2, b1, b0] : Bytes) = [b0, b1, b2, b3] := Option.some.inj hcontra
      rw [show ([b0, b1, b2, b3] : Bytes).reverse = [b3, b2, b1, b0] from rfl, this]

/-- Witness for `hex_display_roundTrip`. -/
theorem hex_display_roundTrip_witness :
    ([18, 52, 86, 120] : Bytes).length = 4 ∧ ByteOk [18, 52, 86, 120] ∧
    (beHexAsBytes (bytesAsBEHex [18, 52, 86, 120]) = some [18, 52, 86, 120] ∧
      leHexAsBytes (bytesAsLEHex [18, 52, 86, 120]) = some ([18, 52, 86, 120] : Bytes).reverse ∧
      (([18, 52, 86, 120] : Bytes).reverse ≠ [18, 52, 86, 120] →
        leHexAsBytes (bytesAsLEHex [18, 52, 86, 120]) ≠ some [18, 52, 86, 120])) :=
  ⟨rfl, by decide, hex_display_roundTrip [18, 52, 86, 120] rfl (by decide)⟩

/-! ### Claims C5 and C2 -/

/-- C5: with the force-hex switch on, a plain field renders as the
big-endian hex display, but a resolved pointer field's stored value is the
`[raw address bytes, resolved value]` pair, and `bytesAsBEHex` over it is
`hex()` of a non-integer — an uncaught `TypeError`, so the whole export
aborts instead of rendering the field. -/
theorem force_hex_pointer_pair_raises :
    renderCell defaultSettings forceHexMods [] .li (.raw [1, 0, 0, 0]) =
      some (.str (bytesAsBEHex [1, 0, 0, 0])) ∧
    renderCell defaultSettings forceHexMods [] .lp
      (.pair [16, 0, 0, 0] (.str ['h', 'i'])) = none ∧
    writeMXEtoCSVTable
      [⟨0, 0, 0, ['A'], 0, [.pair [16, 0, 0, 0] (.str ['h', 'i'])]⟩]
      [⟨['A'], [(.lp, [])]⟩] ['A'] defaultSettings forceHexMods [] = none := by decide

/-- C2: an import row whose `RecordId` is out of range is only logged — the
code then falls through and applies the row's cells to the previously bound
entry.  Here the in-range row for entry 0 leaves its field at `7`, and the
out-of-range row (`RecordId` 5 in a one-entry table) overwrites entry 0's
field with `9`. -/
theorem applyCSV_out_of_range_row_mutates_previous_entry :
    pyIndex 1 5 = none ∧
    applyCSVtoMXE [⟨0, 0, 0, ['A'], 0, [.raw [7, 0, 0, 0]]⟩]
      [⟨['A'], [(.li, [])]⟩]
      [[.str recordIdChars, .str internalNameChars, .str ['<', 'i']],
       [.int 0, .str ['A'], .int 7],
       [.int 5, .str ['A'], .int 9]] =
      some [⟨0, 0, 0, ['A'], 0, [.raw [9, 0, 0, 0]]⟩] := by decide

/-! ### Write-path lemmas -/

theorem pyWriteAt_length (file : Bytes) (pos : Nat) (b : Bytes) :
    (pyWriteAt file pos b).length = max file.length (pos + b.length) := by
  simp only [pyWriteAt, List.length_append, List.length_take, List.length_replicate,
    List.length_drop]
  omega

theorem pyWriteAt_frame (file : Bytes) (pos : Nat) (b : Bytes) (j : Nat)
    (hjf : j < file.length) (hout : j < pos ∨ pos + b.length ≤ j) :
    (pyWriteAt file pos b)[j]? = file[j]? := by
  rcases hout with hj | hj
  · have hlt : j < (file.take pos ++ List.replicate (pos - file.length) 0).length := by
      simp only [List.length_append, List.length_take, List.length_replicate]
      omega
    rw [pyWriteAt, List.append_assoc, List.getElem?_append_left hlt]
    have hlt2 : j < (file.take pos).length := by
      simp only [List.length_take]
      omega
    rw [List.getElem?_append_left hlt2]
    simp [List.getElem?_take, hj]
  · have hpre : ((file.take pos ++ List.replicate (pos - file.length) 0) ++ b).length = pos + b.length := by
      simp only [List.length_append, List.length_take, List.length_replicate]
      omega
    have hge : ((file.take pos ++ List.replicate (pos - file.length) 0) ++ b).length ≤ j := by
      omega
    rw [pyWriteAt, List.getElem?_append_right hge, hpre]
    rw [show file.drop (pos + b.length) = file.drop (pos + b.length) from rfl]
    simp only [List.getElem?_drop]
    congr 1
    omega

/-- In-bounds and frame composition for one traced write followed by the
rest of the loop. -/
theorem writeStep_compose (file out : Bytes) (pos : Nat) (bb : Bytes)
    (tr0 : List (Nat × Nat × Bytes)) (i : Nat)
    (hrec : (pyWriteAt file pos bb).length ≤ out.length ∧
      ((∀ i2 p b2, (i2, p, b2) ∈ tr0 → p + b2.length ≤ (pyWriteAt file pos bb).length) →
        out.length = (pyWriteAt file pos bb).length) ∧
      (∀ j, j < (pyWriteAt file pos bb).length →
        (∀ i2 p b2, (i2, p, b2) ∈ tr0 → j < p ∨ p + b2.length ≤ j) →
        out[j]? = (pyWriteAt file pos bb)[j]?)) :
    file.length ≤ out.length ∧
    ((∀ i2 p b2, (i2, p, b2) ∈ (i, pos, bb) :: tr0 → p + b2.length ≤ file.length) →
      out.length = file.length) ∧
    (∀ j, j < file.length →
      (∀ i2 p b2, (i2, p, b2) ∈ (i, pos, bb) :: tr0 → j < p ∨ p + b2.length ≤ j) →
      out[j]? = file[j]?) := by
  obtain ⟨h1, h2, h3⟩ := hrec
  have hlen := pyWriteAt_length file pos bb
  refine ⟨by omega, ?_, ?_⟩
  · intro hin
    have hhead : pos + bb.length ≤ file.length :=
      hin i pos bb (List.mem_cons_self _ _)
    have hf2 : (pyWriteAt file pos bb).length = file.length := by omega
    rw [h2 ?_, hf2]
    intro i2 p b2 hm
    rw [hf2]
    exact hin i2 p b2 (List.mem_cons_of_mem _ hm)
  · intro j hjf hunt
    have hj2 : j < (pyWriteAt file pos bb).length := by omega
    rw [h3 j hj2 (fun i2 p b2 hm => hunt i2 p b2 (List.mem_cons_of_mem _ hm))]
    exact pyWriteAt_frame file pos bb j hjf (hunt i pos bb (List.mem_cons_self _ _))

theorem writeFields_length_frame (s : MxeSettings) :
    ∀ (tf : List (DType × List Char)) (file : Bytes) (vals : List FieldVal)
      (i pos : Nat) (out : Bytes) (tr : List (Nat × Nat × Bytes)),
      writeFields s file vals tf i pos = some (out, tr) →
      file.length ≤ out.length ∧
      ((∀ i2 p b2, (i2, p, b2) ∈ tr → p + b2.length ≤ file.length) →
        out.length = file.length) ∧
      (∀ j, j < file.length →
        (∀ i2 p b2, (i2, p, b2) ∈ tr → j < p ∨ p + b2.length ≤ j) →
        out[j]? = file[j]?) := by
  intro tf
  induction tf with
  | nil =>
    intro file vals i pos out tr h
    simp only [writeFields, Option.some.injEq, Prod.mk.injEq] at h
    obtain ⟨rfl, rfl⟩ := h
    exact ⟨le_refl _, fun _ => rfl, fun j hj _ => rfl⟩
  | cons f rest ih =>
    intro file vals i pos out tr h
    obtain ⟨dt, nm⟩ := f
    rw [writeFields] at h
    split at h
    · exact ih file vals (i + 1) pos out tr h
    · split at h
      · -- pointer-with-flag branch: match on vals[i]?
        split at h
        · -- vals[i]? = none: entry stops, nothing written
          simp only [Option.some.injEq, Prod.mk.injEq] at h
          obtain ⟨rfl, rfl⟩ := h
          exact ⟨le_refl _, fun _ => rfl, fun j hj _ => rfl⟩
        · -- vals[i]? = some (.pair a v): the raw address bytes are written
          rename_i a v heq
          cases hrec : writeFields s (pyWriteAt file pos a) vals rest (i + 1)
              (pos + a.length) with
          | none => rw [hrec] at h; simp at h
          | some pr =>
            obtain ⟨out2, tr0⟩ := pr
            rw [hrec] at h
            simp only [Option.map_some', Option.some.injEq, Prod.mk.injEq] at h
            obtain ⟨rfl, rfl⟩ := h
            exact writeStep_compose file out2 pos a tr0 i
              (ih (pyWriteAt file pos a) vals (i + 1) (pos + a.length) out2 tr0 hrec)
        · -- vals[i]? = some (.raw b): bytearray(b[0]) zero-fill, or stop on empty
          rename_i b heq
          split at h
          · simp only [Option.some.injEq, Prod.mk.injEq] at h
            obtain ⟨rfl, rfl⟩ := h
            exact ⟨le_refl _, fun _ => rfl, fun j hj _ => rfl⟩
          · rename_i hb tb
            cases hrec : writeFields s (pyWriteAt file pos (List.replicate hb 0)) vals
                rest (i + 1) (pos + hb) with
            | none => rw [hrec] at h; simp at h
            | some pr =>
              obtain ⟨out2, tr0⟩ := pr
              rw [hrec] at h
              simp only [Option.map_some', Option.some.injEq, Prod.mk.injEq] at h
              obtain ⟨rfl, rfl⟩ := h
              exact writeStep_compose file out2 pos (List.replicate hb 0) tr0 i
                (ih (pyWriteAt file pos (List.replicate hb 0)) vals (i + 1)
                  (pos + hb) out2 tr0 hrec)
        · -- vals[i]? = some .noneV: fatal
          simp at h
      · -- plain branch: match on vals[i]?
        split at h
        · simp only [Option.some.injEq, Prod.mk.injEq] at h
          obtain ⟨rfl, rfl⟩ := h
          exact ⟨le_refl _, fun _ => rfl, fun j hj _ => rfl⟩
        · rename_i b heq
          cases hrec : writeFields s (pyWriteAt file pos b) vals rest (i + 1)
              (pos + b.length) with
          | none => rw [hrec] at h; simp at h
          | some pr =>
            obtain ⟨out2, tr0⟩ := pr
            rw [hrec] at h
            simp only [Option.map_some', Option.some.injEq, Prod.mk.injEq] at h
            obtain ⟨rfl, rfl⟩ := h
            exact writeStep_compose file out2 pos b tr0 i
              (ih (pyWriteAt file pos b) vals (i + 1) (pos + b.length) out2 tr0 hrec)
        · -- pair or None in a plain slot: fatal
          simp at h

theorem writeEntry_length_frame (s : MxeSettings) (templates : List Template)
    (file : Bytes) (e : TocEntry) (out : Bytes) (tr : List (Nat × Nat × Bytes))
    (h : writeEntry s templates file e = some (out, tr)) :
    file.length ≤ out.length ∧
    ((∀ i2 p b2, (i2, p, b2) ∈ tr → p + b2.length ≤ file.length) →
      out.length = file.length) ∧
    (∀ j, j < file.length →
      (∀ i2 p b2, (i2, p, b2) ∈ tr → j < p ∨ p + b2.length ≤ j) →
      out[j]? = file[j]?) := by
  rw [writeEntry] at h
  split at h
  · simp only [Option.some.injEq, Prod.mk.injEq] at h
    obtain ⟨rfl, rfl⟩ := h
    exact ⟨le_refl _, fun _ => rfl, fun j hj _ => rfl⟩
  · rename_i t heq
    split at h
    · simp at h
    · exact writeFields_length_frame s t.fields file e.fields 0
        (followAddress s e.recordAddr).toNat out tr h

theorem writeEntries_length_frame (s : MxeSettings) (templates : List Template) :
    ∀ (table : List TocEntry) (file : Bytes) (n : Nat) (out : Bytes)
      (tr : List (Nat × Nat × Nat × Bytes)),
      writeEntries s templates file n table = some (out, tr) →
      file.length ≤ out.length ∧
      ((∀ n2 i2 p b2, (n2, i2, p, b2) ∈ tr → p + b2.length ≤ file.length) →
        out.length = file.length) ∧
      (∀ j, j < file.length →
        (∀ n2 i2 p b2, (n2, i2, p, b2) ∈ tr → j < p ∨ p + b2.length ≤ j) →
        out[j]? = file[j]?) := by
  intro table
  induction table with
  | nil =>
    intro file n out tr h
    simp only [writeEntries, Option.some.injEq, Prod.mk.injEq] at h
    obtain ⟨rfl, rfl⟩ := h
    exact ⟨le_refl _, fun _ => rfl, fun j hj _ => rfl⟩
  | cons e rest ih =>
    intro file n out tr h
    rw [writeEntries] at h
    cases h1 : writeEntry s templates file e with
    | none => rw [h1] at h; simp at h
    | some pr1 =>
      obtain ⟨f2, tr1⟩ := pr1
      rw [h1] at h
      simp only [Option.bind_eq_bind, Option.some_bind] at h
      cases h2 : writeEntries s templates f2 (n + 1) rest with
      | none => rw [h2] at h; simp at h
      | some pr2 =>
        obtain ⟨f3, trs⟩ := pr2
        rw [h2] at h
        simp only [Option.bind_eq_bind, Option.some_bind, Option.pure_def,
          Option.some.injEq, Prod.mk.injEq] at h
        obtain ⟨rfl, rfl⟩ := h
        obtain ⟨e1, e2, e3⟩ := writeEntry_length_frame s templates file e f2 tr1 h1
        obtain ⟨r1, r2, r3⟩ := ih f2 (n + 1) _ trs h2
        have hmem1 : ∀ i2 p b2, (i2, p, b2) ∈ tr1 →
            ((n, i2, p, b2) ∈ tr1.map (fun x => (n, x.1, x.2.1, x.2.2)) ++ trs) := by
          intro i2 p b2 hm
          exact List.mem_append_left _ (List.mem_map.mpr ⟨(i2, p, b2), hm, rfl⟩)
        have hmem2 : ∀ n2 i2 p b2, (n2, i2, p, b2) ∈ trs →
            ((n2, i2, p, b2) ∈ tr1.map (fun x => (n, x.1, x.2.1, x.2.2)) ++ trs) :=
          fun n2 i2 p b2 hm => List.mem_append_right _ hm
        refine ⟨by omega, ?_, ?_⟩
        · intro hin
          have hf2 : f2.length = file.length :=
            e2 (fun i2 p b2 hm => hin n i2 p b2 (hmem1 i2 p b2 hm))
          rw [r2 ?_, hf2]
          intro n2 i2 p b2 hm
          rw [hf2]
          exact hin n2 i2 p b2 (hmem2 n2 i2 p b2 hm)
        · intro j hjf hunt
          have hj2 : j < f2.length := by omega
          rw [r3 j hj2 (fun n2 i2 p b2 hm => hunt n2 i2 p b2 (hmem2 n2 i2 p b2 hm))]
          exact e3 j hjf (fun i2 p b2 hm => hunt n i2 p b2 (hmem1 i2 p b2 hm))

/-! ### Claim C9 -/

/-- C9 (amended): `writeMXEFile` only writes the traced field buffers in
place at their computed (bias-adjusted) positions: it never shortens the
file; when every traced write lies within the existing file extent — as
holds for any table read from that same file — the file length is
unchanged; and every byte outside the written ranges is preserved.  (The
length can grow when a record address points past the end of the file; see
the counterexample.) -/
theorem writeMXE_in_place (file : Bytes) (table : List TocEntry)
    (templates : List Template) (s : MxeSettings) (out : Bytes)
    (tr : List (Nat × Nat × Nat × Bytes))
    (hw : writeMXEFile file table templates s = some (out, tr)) :
    file.length ≤ out.length ∧
    ((∀ n2 i2 p b2, (n2, i2, p, b2) ∈ tr → p + b2.length ≤ file.length) →
      out.length = file.length) ∧
    (∀ j, j < file.length →
      (∀ n2 i2 p b2, (n2, i2, p, b2) ∈ tr → j < p ∨ p + b2.length ≤ j) →
      out[j]? = file[j]?) :=
  writeEntries_length_frame s templates table file 0 out tr hw

/-- C9 counterexample: on a four-byte file, an entry whose record address
(bias-adjusted to 10) lies past the end makes `writeMXEFile` extend the
file to fourteen bytes — the byte length of the target is changed. -/
theorem writeMXE_extends_file_counterexample :
    writeMXEFile [0, 0, 0, 0] [⟨0, 0, 0, ['A'], 10, [.raw [1, 2, 3, 4]]⟩]
      [⟨['A'], [(.li, [])]⟩] zeroOffsetSettings =
      some ([0, 0, 0, 0, 0, 0, 0, 0, 0, 0, 1, 2, 3, 4], [(0, 0, 10, [1, 2, 3, 4])]) ∧
    (14 : Nat) ≠ 4 := by decide

/-- Witness for `writeMXE_in_place`. -/
theorem writeMXE_in_place_witness :
    writeMXEFile [1, 2, 3, 4, 5, 6, 7, 8] [⟨0, 0, 0, ['A'], 2, [.raw [9, 9, 9, 9]]⟩]
      [⟨['A'], [(.li, [])]⟩] zeroOffsetSettings =
      some ([1, 2, 9, 9, 9, 9, 7, 8], [(0, 0, 2, [9, 9, 9, 9])]) ∧
    ([1, 2, 9, 9, 9, 9, 7, 8] : Bytes).length = ([1, 2, 3, 4, 5, 6, 7, 8] : Bytes).length :=
  ⟨by decide,
    (writeMXE_in_place [1, 2, 3, 4, 5, 6, 7, 8] [⟨0, 0, 0, ['A'], 2, [.raw [9, 9, 9, 9]]⟩]
      [⟨['A'], [(.li, [])]⟩] zeroOffsetSettings [1, 2, 9, 9, 9, 9, 7, 8]
      [(0, 0, 2, [9, 9, 9, 9])] (by decide)).2.1
      (by
        intro n2 i2 p b2 hm
        simp only [List.mem_singleton, Prod.mk.injEq] at hm
        obtain ⟨-, -, rfl, rfl⟩ := hm
        decide)⟩


/-! ### Read-path lemmas -/

theorem parseTocEntry_shape (file : Bytes) (s : MxeSettings) (pos : Int)
    (e0 : TocEntry) (p2 : Int) (hp : parseTocEntry file s pos = some (e0, p2)) :
    e0.fields = [] ∧ p2 = pos + ((readChunk file pos s.tocEntrySize).length : Int) := by
  rw [parseTocEntry] at hp
  cases h1 : unpackIntFrom s.tocBigEndian (readChunk file pos s.tocEntrySize)
      s.tocFieldTypenameAddr with
  | none => rw [h1] at hp; simp at hp
  | some a1 =>
    rw [h1] at hp
    simp only [Option.bind_eq_bind, Option.some_bind] at hp
    cases h2 : unpackIntFrom s.tocBigEndian (readChunk file pos s.tocEntrySize)
        s.tocFieldId with
    | none => rw [h2] at hp; simp at hp
    | some i0 =>
      rw [h2] at hp
      simp only [Option.bind_eq_bind, Option.some_bind] at hp
      cases h3 : unpackIntFrom s.tocBigEndian (readChunk file pos s.tocEntrySize)
          s.tocFieldType with
      | none => rw [h3] at hp; simp at hp
      | some t0 =>
        rw [h3] at hp
        simp only [Option.bind_eq_bind, Option.some_bind] at hp
        cases h4 : unpackIntFrom s.tocBigEndian (readChunk file pos s.tocEntrySize)
            s.tocFieldRecordAddr with
        | none => rw [h4] at hp; simp at hp
        | some ra =>
          rw [h4] at hp
          simp only [Option.bind_eq_bind, Option.some_bind] at hp
          cases h5 : readStrChars file (followAddress s a1) with
          | none => rw [h5] at hp; simp at hp
          | some name =>
            rw [h5] at hp
            simp only [Option.bind_eq_bind, Option.some_bind, Option.pure_def,
              Option.some.injEq, Prod.mk.injEq] at hp
            obtain ⟨he, hp2⟩ := hp
            subst he
            exact ⟨rfl, hp2.symm⟩

theorem readChunk_length_of_le (file : Bytes) (pos n : Int) (h0 : 0 ≤ pos)
    (hn : 0 ≤ n) (hle : pos + n ≤ (file.length : Int)) :
    ((readChunk file pos n).length : Int) = n := by
  rw [readChunk, if_neg (by omega), if_neg (by omega)]
  simp only [List.length_take, List.length_drop]
  omega

theorem readTocEntries_spec (file : Bytes) (s : MxeSettings) (hsz : 0 ≤ s.tocEntrySize) :
    ∀ (n : Nat) (pos : Int) (entries : List TocEntry),
      readTocEntries file s n pos = some entries →
      0 ≤ pos → pos + n * s.tocEntrySize ≤ (file.length : Int) →
      entries.length = n ∧
      ∀ i : Nat, i < n →
        ∃ e0, (parseTocEntry file s (pos + i * s.tocEntrySize)).map Prod.fst = some e0 ∧
          e0.fields = [] ∧ entries[i]? = some e0 := by
  intro n
  induction n with
  | zero =>
    intro pos entries h _ _
    simp only [readTocEntries, Option.some.injEq] at h
    subst h
    exact ⟨rfl, fun i hi => absurd hi (Nat.not_lt_zero i)⟩
  | succ n ih =>
    intro pos entries h hpos halign
    rw [readTocEntries] at h
    cases hp : parseTocEntry file s pos with
    | none => rw [hp] at h; simp at h
    | some pr =>
      obtain ⟨e, p2⟩ := pr
      rw [hp] at h
      simp only [Option.bind_eq_bind, Option.some_bind] at h
      cases hr : readTocEntries file s n p2 with
      | none => rw [hr] at h; simp at h
      | some rest =>
        rw [hr] at h
        simp only [Option.bind_eq_bind, Option.some_bind, Option.pure_def,
          Option.some.injEq] at h
        subst h
        obtain ⟨hf, hp2⟩ := parseTocEntry_shape file s pos e p2 hp
        have hmul : (((n + 1 : Nat)) : Int) * s.tocEntrySize =
            (n : Int) * s.tocEntrySize + s.tocEntrySize := by push_cast; ring
        have hmn : 0 ≤ (n : Int) * s.tocEntrySize :=
          mul_nonneg (Int.natCast_nonneg n) hsz
        have hchunk : ((readChunk file pos s.tocEntrySize).length : Int) =
            s.tocEntrySize :=
          readChunk_length_of_le file pos s.tocEntrySize hpos hsz (by omega)
        have hp2e : p2 = pos + s.tocEntrySize := by rw [hp2, hchunk]
        obtain ⟨hlen, hidx⟩ := ih p2 rest hr (by omega) (by rw [hp2e]; omega)
        refine ⟨by simp [hlen], ?_⟩
        intro i hi
        cases i with
        | zero =>
          refine ⟨e, ?_, hf, by simp⟩
          have hz : pos + ((0 : Nat) : Int) * s.tocEntrySize = pos := by
            push_cast; ring
          rw [hz, hp]
          rfl
        | succ i =>
          obtain ⟨e0, hparse, hf0, hget⟩ := hidx i (by omega)
          refine ⟨e0, ?_, hf0, by simpa using hget⟩
          have harith : pos + ((i + 1 : Nat) : Int) * s.tocEntrySize =
              p2 + (i : Int) * s.tocEntrySize := by
            rw [hp2e]; push_cast; ring
          rw [harith]
          exact hparse

theorem processEntries_spec (file : Bytes) (s : MxeSettings) (templates : List Template) :
    ∀ (entries table : List TocEntry),
      processEntries file s templates entries = some table →
      table.length = entries.length ∧
      ∀ (i : Nat) (e0 : TocEntry), entries[i]? = some e0 →
        ∃ e, processEntry file s templates e0 = some e ∧ table[i]? = some e := by
  intro entries
  induction entries with
  | nil =>
    intro table h
    simp only [processEntries, Option.some.injEq] at h
    subst h
    exact ⟨rfl, fun i e0 h0 => by simp at h0⟩
  | cons e rest ih =>
    intro table h
    rw [processEntries] at h
    cases h1 : processEntry file s templates e with
    | none => rw [h1] at h; simp at h
    | some e2 =>
      rw [h1] at h
      simp only [Option.bind_eq_bind, Option.some_bind] at h
      cases h2 : processEntries file s templates rest with
      | none => rw [h2] at h; simp at h
      | some rest2 =>
        rw [h2] at h
        simp only [Option.bind_eq_bind, Option.some_bind, Option.pure_def,
          Option.some.injEq] at h
        subst h
        obtain ⟨hlen, hidx⟩ := ih rest2 h2
        refine ⟨by simp [hlen], ?_⟩
        intro i e0 h0
        cases i with
        | zero =>
          simp only [List.getElem?_cons_zero, Option.some.injEq] at h0
          subst h0
          exact ⟨e2, h1, by simp⟩
        | succ i =>
          simp only [List.getElem?_cons_succ] at h0
          obtain ⟨e3, hp3, hg3⟩ := hidx i e0 h0
          exact ⟨e3, hp3, by simpa using hg3⟩

/-! ### Claim C8 -/

/-- C8: on a successful read, the Main Table has exactly the stored entry
count of entries, the `i`-th entry comes from the `i`-th TOC slot (file
order), and an entry whose unqualified type name matches no template is
retained unchanged at its index with an empty field list — the read
completes through it (`processEntry` succeeds on it). -/
theorem readMXE_table_shape (file : Bytes) (templates : List Template)
    (s : MxeSettings) (table : List TocEntry) (count start : Int)
    (hr : readMXEFile file templates s = some table)
    (hc : readIntAt file s.mainTableCountAddr = some count)
    (hs2 : readIntAt file s.mainTableStartAddrAddr = some start)
    (hcount : 0 ≤ count)
    (hsz : 0 ≤ s.tocEntrySize)
    (halign : followAddress s start + count * s.tocEntrySize ≤ (file.length : Int)) :
    table.length = count.toNat ∧
    (∀ i : Nat, i < count.toNat →
      ∃ e0 e,
        (parseTocEntry file s (followAddress s start + i * s.tocEntrySize)).map
          Prod.fst = some e0 ∧
        e0.fields = [] ∧
        processEntry file s templates e0 = some e ∧
        table[i]? = some e ∧
        (findTemplate templates (typeKey e0.typeName) = none → e = e0)) := by
  rw [readMXEFile, hc] at hr
  simp only [Option.bind_eq_bind, Option.some_bind] at hr
  rw [hs2] at hr
  simp only [Option.bind_eq_bind, Option.some_bind] at hr
  by_cases hneg : followAddress s start < 0
  · rw [if_pos hneg] at hr
    simp at hr
  · rw [if_neg hneg] at hr
    cases he : readTocEntries file s count.toNat (followAddress s start) with
    | none => rw [he] at hr; simp at hr
    | some entries =>
      rw [he] at hr
      simp only [Option.bind_eq_bind, Option.some_bind] at hr
      have hcast : ((count.toNat : Nat) : Int) = count := Int.toNat_of_nonneg hcount
      obtain ⟨hlen1, hidx1⟩ := readTocEntries_spec file s hsz count.toNat
        (followAddress s start) entries he (by omega) (by rw [hcast]; exact halign)
      obtain ⟨hlen2, hidx2⟩ := processEntries_spec file s templates entries table hr
      refine ⟨by rw [hlen2, hlen1], ?_⟩
      intro i hi
      obtain ⟨e0, hparse, hf0, hget0⟩ := hidx1 i hi
      obtain ⟨e, hproc, hget⟩ := hidx2 i e0 hget0
      refine ⟨e0, e, hparse, hf0, hproc, hget, ?_⟩
      intro hnone
      have : processEntry file s templates e0 = some e0 := by
        rw [processEntry, hnone]
      rw [this] at hproc
      exact (Option.some.inj hproc).symm

/-- Witness for `readMXE_table_shape`. -/
theorem readMXE_table_shape_witness :
    readMXEFile fileGood [tA4, tB] zeroOffsetSettings = some tableGood ∧
    readIntAt fileGood zeroOffsetSettings.mainTableCountAddr = some 2 ∧
    readIntAt fileGood zeroOffsetSettings.mainTableStartAddrAddr = some 8 ∧
    (tableGood.length = (2 : Int).toNat ∧
      (∀ i : Nat, i < (2 : Int).toNat →
        ∃ e0 e,
          (parseTocEntry fileGood zeroOffsetSettings
            (followAddress zeroOffsetSettings 8 + i * zeroOffsetSettings.tocEntrySize)).map
            Prod.fst = some e0 ∧
          e0.fields = [] ∧
          processEntry fileGood zeroOffsetSettings [tA4, tB] e0 = some e ∧
          tableGood[i]? = some e ∧
          (findTemplate [tA4, tB] (typeKey e0.typeName) = none → e = e0))) :=
  ⟨by decide, by decide, by decide,
    readMXE_table_shape fileGood [tA4, tB] zeroOffsetSettings tableGood 2 8
      (by decide) (by decide) (by decide) (by decide) (by decide) (by decide)⟩

/-! ### Shape of the fields `readMXEFile` stores -/

theorem readFields_shape (file : Bytes) (s : MxeSettings) :
    ∀ (tf : List (DType × List Char)) (pos : Int) (vals : List FieldVal),
      readFields file s tf pos = some vals →
      (∀ f ∈ tf, DataTypes f.1 ≠ none) →
      vals.length = tf.length ∧
      ∀ (j : Nat) (dt : DType) (nm : List Char), tf[j]? = some (dt, nm) →
        (ptrResolved s dt → ∃ a v, vals[j]? = some (.pair a v)) ∧
        (¬ ptrResolved s dt → ∃ b, vals[j]? = some (.raw b)) := by
  intro tf
  induction tf with
  | nil =>
    intro pos vals h _
    simp only [readFields, Option.some.injEq] at h
    subst h
    exact ⟨rfl, fun j dt nm hj => by simp at hj⟩
  | cons f rest ih =>
    intro pos vals h hleg
    obtain ⟨dt0, nm0⟩ := f
    have hknown : DataTypes dt0 ≠ none := hleg (dt0, nm0) (List.mem_cons_self _ _)
    have hlegr : ∀ f ∈ rest, DataTypes f.1 ≠ none :=
      fun f hf => hleg f (List.mem_cons_of_mem _ hf)
    rw [readFields] at h
    split at h
    · exact absurd (by assumption) hknown
    · rename_i w hw
      split at h
      · rename_i hc1
        split at h
        · simp at h
        · rename_i intAddr heq1
          split at h
          · simp at h
          · rename_i v heq2
            split at h
            · simp at h
            · rename_i restVals heq3
              simp only [Option.some.injEq] at h
              subst h
              obtain ⟨hlen, hidx⟩ := ih _ restVals heq3 hlegr
              refine ⟨by simp [hlen], ?_⟩
              intro j dt nm hj
              cases j with
              | zero =>
                simp only [List.getElem?_cons_zero, Option.some.injEq,
                  Prod.mk.injEq] at hj
                obtain ⟨rfl, rfl⟩ := hj
                exact ⟨fun _ => ⟨readChunk file pos w, .str v, by simp⟩,
                  fun hnp => absurd (Or.inl hc1) hnp⟩
              | succ j =>
                simp only [List.getElem?_cons_succ] at hj
                obtain ⟨hp1, hp2⟩ := hidx j dt nm hj
                refine ⟨fun hres => ?_, fun hres => ?_⟩
                · obtain ⟨a, v2, hv⟩ := hp1 hres
                  exact ⟨a, v2, by simpa using hv⟩
                · obtain ⟨b, hv⟩ := hp2 hres
                  exact ⟨b, by simpa using hv⟩
      · rename_i hc1
        split at h
        · rename_i hc2
          split at h
          · simp at h
          · rename_i intAddr heq1
            split at h
            · simp at h
            · rename_i v heq2
              split at h
              · simp at h
              · rename_i restVals heq3
                simp only [Option.some.injEq] at h
                subst h
                obtain ⟨hlen, hidx⟩ := ih _ restVals heq3 hlegr
                refine ⟨by simp [hlen], ?_⟩
                intro j dt nm hj
                cases j with
                | zero =>
                  simp only [List.getElem?_cons_zero, Option.some.injEq,
                    Prod.mk.injEq] at hj
                  obtain ⟨rfl, rfl⟩ := hj
                  exact ⟨fun _ => ⟨readChunk file pos w, .bytes v, by simp⟩,
                    fun hnp => absurd (Or.inr hc2) hnp⟩
                | succ j =>
                  simp only [List.getElem?_cons_succ] at hj
                  obtain ⟨hp1, hp2⟩ := hidx j dt nm hj
                  refine ⟨fun hres => ?_, fun hres => ?_⟩
                  · obtain ⟨a, v2, hv⟩ := hp1 hres
                    exact ⟨a, v2, by simpa using hv⟩
                  · obtain ⟨b, hv⟩ := hp2 hres
                    exact ⟨b, by simpa using hv⟩
        · rename_i hc2
          split at h
          · simp at h
          · rename_i restVals heq3
            simp only [Option.some.injEq] at h
            subst h
            obtain ⟨hlen, hidx⟩ := ih _ restVals heq3 hlegr
            refine ⟨by simp [hlen], ?_⟩
            intro j dt nm hj
            cases j with
            | zero =>
              simp only [List.getElem?_cons_zero, Option.some.injEq,
                Prod.mk.injEq] at hj
              obtain ⟨rfl, rfl⟩ := hj
              refine ⟨fun hres => ?_, fun _ => ⟨readChunk file pos w, by simp⟩⟩
              rcases hres with hres | hres
              · exact absurd hres hc1
              · exact absurd hres hc2
            | succ j =>
              simp only [List.getElem?_cons_succ] at hj
              obtain ⟨hp1, hp2⟩ := hidx j dt nm hj
              refine ⟨fun hres => ?_, fun hres => ?_⟩
              · obtain ⟨a, v2, hv⟩ := hp1 hres
                exact ⟨a, v2, by simpa using hv⟩
              · obtain ⟨b, hv⟩ := hp2 hres
                exact ⟨b, by simpa using hv⟩

theorem processEntry_wf (file : Bytes) (s : MxeSettings) (templates : List Template)
    (e0 e : TocEntry)
    (hleg : ∀ t ∈ templates, ∀ f ∈ t.fields, DataTypes f.1 ≠ none)
    (hpe : processEntry file s templates e0 = some e) :
    ∀ t, findTemplate templates (typeKey e.typeName) = some t →
      0 ≤ followAddress s e.recordAddr ∧ entryShape s t e := by
  rw [processEntry] at hpe
  split at hpe
  · rename_i hft
    obtain rfl : e0 = e := Option.some.inj hpe
    intro t ht
    rw [hft] at ht
    simp at ht
  · rename_i t0 hft
    split at hpe
    · simp at hpe
    · rename_i hneg
      cases hrf : readFields file s t0.fields (followAddress s e0.recordAddr) with
      | none => rw [hrf] at hpe; simp at hpe
      | some vals =>
        rw [hrf] at hpe
        simp only [Option.map_some', Option.some.injEq] at hpe
        subst hpe
        intro t ht
        rw [show ({ e0 with fields := vals } : TocEntry).typeName = e0.typeName from rfl,
          hft] at ht
        obtain rfl : t0 = t := Option.some.inj ht
        have hmem : t0 ∈ templates := List.mem_of_find?_eq_some hft
        obtain ⟨hlen, hidx⟩ := readFields_shape file s t0.fields
          (followAddress s e0.recordAddr) vals hrf (hleg t0 hmem)
        refine ⟨?_, hlen, hidx⟩
        show 0 ≤ followAddress s e0.recordAddr
        omega

theorem readMXE_wf (file : Bytes) (templates : List Template) (s : MxeSettings)
    (table : List TocEntry)
    (hr : readMXEFile file templates s = some table)
    (hleg : ∀ t ∈ templates, ∀ f ∈ t.fields, DataTypes f.1 ≠ none) :
    ∀ (n : Nat) (e : TocEntry), table[n]? = some e →
      ∀ t, findTemplate templates (typeKey e.typeName) = some t →
        0 ≤ followAddress s e.recordAddr ∧ entryShape s t e := by
  rw [readMXEFile] at hr
  cases hc : readIntAt file s.mainTableCountAddr with
  | none => rw [hc] at hr; simp at hr
  | some count =>
    rw [hc] at hr
    simp only [Option.bind_eq_bind, Option.some_bind] at hr
    cases hs2 : readIntAt file s.mainTableStartAddrAddr with
    | none => rw [hs2] at hr; simp at hr
    | some start =>
      rw [hs2] at hr
      simp only [Option.bind_eq_bind, Option.some_bind] at hr
      by_cases hneg : followAddress s start < 0
      · rw [if_pos hneg] at hr
        simp at hr
      · rw [if_neg hneg] at hr
        cases he : readTocEntries file s count.toNat (followAddress s start) with
        | none => rw [he] at hr; simp at hr
        | some entries =>
          rw [he] at hr
          simp only [Option.bind_eq_bind, Option.some_bind] at hr
          intro n e hget t ht
          obtain ⟨hlen2, hidx2⟩ := processEntries_spec file s templates entries table hr
          have hn : n < entries.length := by
            obtain ⟨hlt, -⟩ := List.getElem?_eq_some_iff.mp hget
            omega
          have hge : ∃ e0, entries[n]? = some e0 := by
            exact ⟨entries[n], List.getElem?_eq_getElem hn⟩
          obtain ⟨e0, hge0⟩ := hge
          obtain ⟨e2, hpe2, hget2⟩ := hidx2 n e0 hge0
          rw [hget] at hget2
          obtain rfl : e = e2 := Option.some.inj hget2
          exact processEntry_wf file s templates e0 e hleg hpe2 t ht

/-! ### Import-path frame lemmas -/

theorem mem_of_get? {α : Type} : ∀ {l : List α} {n : Nat} {a : α},
    l[n]? = some a → a ∈ l := by
  intro l
  induction l with
  | nil => intro n a h; simp at h
  | cons b rest ih =>
    intro n a h
    match n with
    | 0 =>
      rw [List.getElem?_cons_zero] at h
      exact (Option.some.inj h) ▸ List.mem_cons_self b rest
    | n + 1 =>
      rw [List.getElem?_cons_succ] at h
      exact List.mem_cons_of_mem b (ih h)

theorem get?_of_mem {α : Type} {a : α} : ∀ {l : List α},
    a ∈ l → ∃ n : Nat, l[n]? = some a := by
  intro l
  induction l with
  | nil => intro h; cases h
  | cons b rest ih =>
    intro h
    rcases List.mem_cons.mp h with rfl | h2
    · exact ⟨0, by simp⟩
    · obtain ⟨n, hn⟩ := ih h2
      exact ⟨n + 1, by simpa using hn⟩

theorem get?_none_mono {α : Type} (l : List α) (i j : Nat) (hij : i ≤ j)
    (h : l[i]? = none) : l[j]? = none := by
  rw [List.getElem?_eq_none_iff] at h ⊢
  omega

theorem objToBytes_known (dt : DType) (v : PyVal) (b : Option Bytes)
    (hdt : DataTypes dt ≠ none) (h : objToBytes v dt = some b) :
    ∃ bb, b = some bb := by
  cases dt
  case other tag => exact absurd rfl hdt
  all_goals
    simp only [objToBytes] at h
    obtain ⟨bb, hbb, rfl⟩ := Option.map_eq_some'.mp h
    exact ⟨bb, rfl⟩

theorem ptrResolved_isPointer (s : MxeSettings) (dt : DType)
    (h : ptrResolved s dt) : isPointerDT dt = true := by
  rcases h with ⟨h1 | h1, _⟩ | ⟨h1 | h1, _⟩ <;> subst h1 <;> decide

theorem ptrResolved_known (s : MxeSettings) (dt : DType)
    (h : ptrResolved s dt) : DataTypes dt ≠ none := by
  rcases h with ⟨h1 | h1, _⟩ | ⟨h1 | h1, _⟩ <;> subst h1 <;> decide

theorem skip_cond_step (dt : DType) (nm : List Char)
    (rest : List (DType × List Char)) (i j : Nat)
    (h : j < i ∨ ∀ q : DType × List Char, ((dt, nm) :: rest)[j - i]? = some q →
      isPointerDT q.1 = true) :
    j < i + 1 ∨ ∀ q : DType × List Char, rest[j - (i + 1)]? = some q →
      isPointerDT q.1 = true := by
  rcases h with h | h
  · exact Or.inl (by omega)
  · by_cases hji : j ≤ i
    · exact Or.inl (by omega)
    · refine Or.inr (fun q hq => h q ?_)
      have hrw : j - i = (j - (i + 1)) + 1 := by omega
      rw [hrw, List.getElem?_cons_succ]
      exact hq

theorem importFrame_refl (tfs : List (DType × List Char)) (i : Nat)
    (table : List TocEntry) : importFrame tfs i table table := by
  refine ⟨rfl, fun n e hn => ⟨e, hn, rfl, rfl, rfl, rfl, rfl, rfl, fun j =>
    ⟨Or.inl rfl, fun _ => rfl⟩⟩⟩

theorem importFrame_skip (dt : DType) (nm : List Char)
    (rest : List (DType × List Char)) (i : Nat) (table out : List TocEntry)
    (h : importFrame rest (i + 1) table out) :
    importFrame ((dt, nm) :: rest) i table out := by
  obtain ⟨hlen, hent⟩ := h
  refine ⟨hlen, fun n e hn => ?_⟩
  obtain ⟨e2, he2, m1, m2, m3, m4, m5, m6, hj⟩ := hent n e hn
  exact ⟨e2, he2, m1, m2, m3, m4, m5, m6, fun j =>
    ⟨(hj j).1, fun hc => (hj j).2 (skip_cond_step dt nm rest i j hc)⟩⟩

theorem importFrame_set (dt : DType) (nm : List Char)
    (rest : List (DType × List Char)) (i : Nat) (table out : List TocEntry)
    (k : Nat) (e : TocEntry) (bb : Bytes)
    (hnp : ¬ isPointerDT dt = true)
    (hk : table[k]? = some e)
    (h : importFrame rest (i + 1)
      (table.set k { e with fields := e.fields.set i (FieldVal.raw bb) }) out) :
    importFrame ((dt, nm) :: rest) i table out := by
  obtain ⟨hlen, hent⟩ := h
  have hklen : k < table.length := (List.getElem?_eq_some_iff.mp hk).1
  refine ⟨by rw [hlen, List.length_set], fun n e0 hn => ?_⟩
  by_cases hnk : n = k
  · subst hnk
    obtain rfl : e = e0 := Option.some.inj (hk.symm.trans hn)
    have hset : (table.set n { e with fields := e.fields.set i (FieldVal.raw bb) })[n]? =
        some { e with fields := e.fields.set i (FieldVal.raw bb) } :=
      List.getElem?_set_self hklen
    obtain ⟨e2, he2, m1, m2, m3, m4, m5, m6, hj⟩ := hent n _ hset
    refine ⟨e2, he2, m1, m2, m3, m4, m5, by rw [m6]; exact List.length_set .., fun j => ?_⟩
    constructor
    · rcases (hj j).1 with heq | hraw
      · by_cases hij : i = j
        · subst hij
          by_cases hlt : i < e.fields.length
          · exact Or.inr ⟨bb, by rw [heq]; exact List.getElem?_set_self hlt⟩
          · refine Or.inl ?_
            rw [heq]
            have h1 : (e.fields.set i (FieldVal.raw bb))[i]? = none := by
              rw [List.getElem?_eq_none_iff, List.length_set]
              omega
            have h2 : e.fields[i]? = none := by
              rw [List.getElem?_eq_none_iff]
              omega
            rw [h1, h2]
        · exact Or.inl (by rw [heq]; exact List.getElem?_set_ne hij)
      · exact Or.inr hraw
    · intro hc
      have hij : i ≠ j := by
        intro hij
        subst hij
        rcases hc with hc | hc
        · omega
        · have := hc (dt, nm) (by simp)
          exact hnp this
      have hpres := (hj j).2 (skip_cond_step dt nm rest i j hc)
      rw [hpres]
      exact List.getElem?_set_ne hij
  · have hset : (table.set k { e with fields := e.fields.set i (FieldVal.raw bb) })[n]? =
        some e0 := by
      rw [List.getElem?_set_ne (fun hh => hnk hh.symm)]
      exact hn
    obtain ⟨e2, he2, m1, m2, m3, m4, m5, m6, hj⟩ := hent n e0 hset
    exact ⟨e2, he2, m1, m2, m3, m4, m5, m6, fun j =>
      ⟨(hj j).1, fun hc => (hj j).2 (skip_cond_step dt nm rest i j hc)⟩⟩

theorem importFrame_trans (tfs : List (DType × List Char))
    (t1 t2 t3 : List TocEntry)
    (h1 : importFrame tfs 0 t1 t2) (h2 : importFrame tfs 0 t2 t3) :
    importFrame tfs 0 t1 t3 := by
  obtain ⟨l1, e1⟩ := h1
  obtain ⟨l2, e2⟩ := h2
  refine ⟨l2.trans l1, fun n e hn => ?_⟩
  obtain ⟨ea, hea, a1, a2, a3, a4, a5, a6, ha⟩ := e1 n e hn
  obtain ⟨eb, heb, b1, b2, b3, b4, b5, b6, hb⟩ := e2 n ea hea
  refine ⟨eb, heb, b1.trans a1, b2.trans a2, b3.trans a3, b4.trans a4,
    b5.trans a5, b6.trans a6, fun j => ?_⟩
  constructor
  · rcases (hb j).1 with hbe | hbr
    · rcases (ha j).1 with hae | har
      · exact Or.inl (hbe.trans hae)
      · exact Or.inr (by rw [hbe]; exact har)
    · exact Or.inr hbr
  · intro hc
    exact ((hb j).2 hc).trans ((ha j).2 hc)

theorem applyRowFields_frame (hdr : List (List Char × List Char))
    (row : List PyVal) (kOpt : Option Nat) :
    ∀ (tfs : List (DType × List Char)) (i : Nat) (table out : List TocEntry),
      (∀ (k : Nat) (q : DType × List Char), tfs[k]? = some q →
        DataTypes q.1 ≠ none) →
      applyRowFields hdr row kOpt table tfs i = some out →
      importFrame tfs i table out := by
  intro tfs
  induction tfs with
  | nil =>
    intro i table out hkn h
    simp only [applyRowFields, Option.some.injEq] at h
    exact h ▸ importFrame_refl [] i table
  | cons f rest ih =>
    intro i table out hkn h
    obtain ⟨dt, nm⟩ := f
    have hkn' : ∀ (k : Nat) (q : DType × List Char), rest[k]? = some q →
        DataTypes q.1 ≠ none := by
      intro k q hq
      exact hkn (k + 1) q (by rw [List.getElem?_cons_succ]; exact hq)
    rw [applyRowFields] at h
    split at h
    · exact importFrame_skip dt nm rest i table out (ih (i + 1) table out hkn' h)
    · rename_i hp hhp
      split at h
      · exact importFrame_skip dt nm rest i table out (ih (i + 1) table out hkn' h)
      · split at h
        · exact importFrame_skip dt nm rest i table out (ih (i + 1) table out hkn' h)
        · rename_i hnp
          split at h
          · exact importFrame_skip dt nm rest i table out (ih (i + 1) table out hkn' h)
          · rename_i cell hcell
            split at h
            · exact absurd h (by simp)
            · rename_i b hb
              split at h
              · exact absurd h (by simp)
              · rename_i k
                split at h
                · exact absurd h (by simp)
                · rename_i e he
                  split at h
                  · exact importFrame_skip dt nm rest i table out
                      (ih (i + 1) table out hkn' h)
                  · rename_i fv hfv
                    split at h
                    · exact importFrame_skip dt nm rest i table out
                        (ih (i + 1) table out hkn' h)
                    · rename_i hne
                      obtain ⟨bb, rfl⟩ := objToBytes_known dt cell _
                        (hkn 0 (dt, nm) (by simp)) hb
                      exact importFrame_set dt nm rest i table out k e bb
                        hnp he (ih (i + 1) _ out hkn' h)

theorem applyDataRows_frame (tmpl : Template) (hdr : List (List Char × List Char))
    (hkn : ∀ (k : Nat) (q : DType × List Char), tmpl.fields[k]? = some q →
      DataTypes q.1 ≠ none) :
    ∀ (rows : List (List PyVal)) (table : List TocEntry) (lastIdx : Option Nat)
      (out : List TocEntry),
      applyDataRows tmpl hdr table lastIdx rows = some out →
      importFrame tmpl.fields 0 table out := by
  intro rows
  induction rows with
  | nil =>
    intro table lastIdx out h
    simp only [applyDataRows, Option.some.injEq] at h
    exact h ▸ importFrame_refl tmpl.fields 0 table
  | cons row rest ih =>
    intro table lastIdx out h
    rw [applyDataRows] at h
    cases hx : rowLookup table.length lastIdx row with
    | none => rw [hx] at h; simp at h
    | some newIdx =>
      rw [hx] at h
      simp only [Option.bind_eq_bind, Option.some_bind] at h
      cases h2 : applyRowFields hdr row newIdx table tmpl.fields 0 with
      | none => rw [h2] at h; simp at h
      | some table2 =>
        rw [h2] at h
        simp only [Option.bind_eq_bind, Option.some_bind] at h
        exact importFrame_trans tmpl.fields table table2 out
          (applyRowFields_frame hdr row newIdx tmpl.fields 0 table table2 hkn h2)
          (ih table2 newIdx out h)

theorem applyCSV_cases (table : List TocEntry) (templates : List Template)
    (csv : List (List PyVal)) (table2 : List TocEntry)
    (h : applyCSVtoMXE table templates csv = some table2) :
    table2 = table ∨
    ∃ tc hdr rows, csvTemplate templates csv = some tc ∧
      applyDataRows tc hdr table none rows = some table2 := by
  rcases csv with _ | ⟨row0, dataRows⟩
  · exact Or.inl (Option.some.inj h).symm
  · rw [applyCSVtoMXE] at h
    cases h0 : row0[0]? with
    | none => rw [h0] at h; simp at h
    | some c0 =>
      rw [h0] at h
      simp only [Option.bind_eq_bind, Option.some_bind] at h
      cases h1 : row0[1]? with
      | none => rw [h1] at h; simp at h
      | some c1 =>
        rw [h1] at h
        simp only [Option.bind_eq_bind, Option.some_bind] at h
        split at h
        · exact Or.inl (Option.some.inj h).symm
        · rename_i hhdr
          cases hh : (row0.drop 2).mapM headerPair with
          | none => rw [hh] at h; simp at h
          | some hdr =>
            rw [hh] at h
            simp only [Option.bind_eq_bind, Option.some_bind] at h
            rcases dataRows with _ | ⟨row1, rest⟩
            · exact Or.inl (Option.some.inj h).symm
            · rw [csvBody] at h
              cases hcn : row1[1]? with
              | none => rw [hcn] at h; simp at h
              | some cn =>
                rw [hcn] at h
                simp only [Option.bind_eq_bind, Option.some_bind] at h
                cases hnm : pyStr cn with
                | none => rw [hnm] at h; simp at h
                | some nm =>
                  rw [hnm] at h
                  simp only [Option.bind_eq_bind, Option.some_bind] at h
                  cases htm : findTemplate templates (typeKey nm) with
                  | none => rw [htm] at h; simp at h
                  | some tmpl =>
                    rw [htm] at h
                    simp only [Option.bind_eq_bind, Option.some_bind] at h
                    refine Or.inr ⟨tmpl, hdr, row1 :: rest, ?_, h⟩
                    simp [csvTemplate, hcn, hnm, htm]

/-! ### Write-path totality and trace lemmas -/

theorem fieldShape_tail (s : MxeSettings) (vals : List FieldVal) (dt : DType)
    (nm : List Char) (rest : List (DType × List Char)) (i : Nat)
    (h : fieldShape s vals ((dt, nm) :: rest) i) :
    fieldShape s vals rest (i + 1) := by
  intro k dt2 nm2 hk
  have h2 := h (k + 1) dt2 nm2 (by rw [List.getElem?_cons_succ]; exact hk)
  rwa [show i + (k + 1) = (i + 1) + k by omega] at h2

theorem writeFields_total (s : MxeSettings) (vals : List FieldVal) :
    ∀ (tfs : List (DType × List Char)) (i pos : Nat) (file : Bytes),
      fieldShape s vals tfs i →
      writeFields s file vals tfs i pos ≠ none := by
  intro tfs
  induction tfs with
  | nil => intro i pos file hsh hnone; simp [writeFields] at hnone
  | cons f rest ih =>
    intro i pos file hsh hnone
    obtain ⟨dt, nm⟩ := f
    have hsh' := fieldShape_tail s vals dt nm rest i hsh
    have h0 := hsh 0 dt nm (by simp)
    rw [writeFields] at hnone
    split at hnone
    · rename_i hdt
      exact h0.1 hdt
    · split at hnone
      · rename_i hc
        split at hnone
        · rename_i heq
          obtain ⟨a, v, hav⟩ := h0.2.1 hc
          rw [Nat.add_zero] at hav
          exact Option.noConfusion (hav.symm.trans heq)
        · rename_i a v heq
          exact ih (i + 1) (pos + a.length) _ hsh' (Option.map_eq_none'.mp hnone)
        · rename_i b heq
          split at hnone
          · exact Option.noConfusion hnone
          · rename_i hb tb
            exact ih (i + 1) (pos + hb) _ hsh' (Option.map_eq_none'.mp hnone)
        · rename_i heq
          obtain ⟨a, v, hav⟩ := h0.2.1 hc
          rw [Nat.add_zero] at hav
          rw [heq] at hav
          exact FieldVal.noConfusion (Option.some.inj hav)
      · rename_i hc
        split at hnone
        · rename_i heq
          obtain ⟨b, hbv⟩ := h0.2.2 hc
          rw [Nat.add_zero] at hbv
          exact Option.noConfusion (hbv.symm.trans heq)
        · rename_i b heq
          exact ih (i + 1) (pos + b.length) _ hsh' (Option.map_eq_none'.mp hnone)
        · rename_i val hnr heq
          obtain ⟨b, hbv⟩ := h0.2.2 hc
          rw [Nat.add_zero] at hbv
          rw [heq] at hbv
          exact hnr b (Option.some.inj hbv)

theorem writeFields_trace (s : MxeSettings) (vals : List FieldVal) :
    ∀ (tfs : List (DType × List Char)) (i pos : Nat) (file out : Bytes)
      (tr : List (Nat × Nat × Bytes)),
      fieldShape s vals tfs i →
      writeFields s file vals tfs i pos = some (out, tr) →
      ∀ (k : Nat) (dt : DType) (nm : List Char) (a : Bytes) (v : PyVal),
        tfs[k]? = some (dt, nm) → ptrResolved s dt →
        vals[i + k]? = some (FieldVal.pair a v) → ∃ p, (i + k, p, a) ∈ tr := by
  intro tfs
  induction tfs with
  | nil =>
    intro i pos file out tr hsh h k dt nm a v hk hptr hv
    simp at hk
  | cons f rest ih =>
    intro i pos file out tr hsh h k dt nm a v hk hptr hv
    obtain ⟨dtf, nmf⟩ := f
    have hsh' := fieldShape_tail s vals dtf nmf rest i hsh
    have h0 := hsh 0 dtf nmf (by simp)
    rw [writeFields] at h
    split at h
    · rename_i hdt
      exact absurd hdt h0.1
    · split at h
      · rename_i hc
        split at h
        · rename_i heq
          have hnk : vals[i + k]? = none := get?_none_mono vals i (i + k) (by omega) heq
          exact Option.noConfusion (hnk.symm.trans hv)
        · rename_i a0 v0 heq
          cases hrec : writeFields s (pyWriteAt file pos a0) vals rest (i + 1)
              (pos + a0.length) with
          | none => rw [hrec] at h; simp at h
          | some pr =>
            obtain ⟨out2, tr0⟩ := pr
            rw [hrec] at h
            simp only [Option.map_some', Option.some.injEq, Prod.mk.injEq] at h
            obtain ⟨rfl, rfl⟩ := h
            cases k with
            | zero =>
              rw [List.getElem?_cons_zero] at hk
              have hk2 := Option.some.inj hk
              have hdteq : dtf = dt := congrArg Prod.fst hk2
              subst hdteq
              rw [Nat.add_zero] at hv
              have hpair := Option.some.inj (heq.symm.trans hv)
              injection hpair with ha hv2
              subst ha
              exact ⟨pos, by rw [Nat.add_zero]; exact List.mem_cons_self _ _⟩
            | succ k =>
              rw [List.getElem?_cons_succ] at hk
              have hv2 : vals[(i + 1) + k]? = some (FieldVal.pair a v) := by
                rwa [show (i + 1) + k = i + (k + 1) by omega]
              obtain ⟨p, hp⟩ := ih (i + 1) (pos + a0.length) _ out2 tr0 hsh' hrec
                k dt nm a v hk hptr hv2
              refine ⟨p, ?_⟩
              rw [show i + (k + 1) = (i + 1) + k by omega]
              exact List.mem_cons_of_mem _ hp
        · rename_i b heq
          obtain ⟨a1, v1, hav⟩ := h0.2.1 hc
          rw [Nat.add_zero] at hav
          exact FieldVal.noConfusion (Option.some.inj (hav.symm.trans heq))
        · exact Option.noConfusion h
      · rename_i hc
        split at h
        · rename_i heq
          have hnk : vals[i + k]? = none := get?_none_mono vals i (i + k) (by omega) heq
          exact Option.noConfusion (hnk.symm.trans hv)
        · rename_i b heq
          cases hrec : writeFields s (pyWriteAt file pos b) vals rest (i + 1)
              (pos + b.length) with
          | none => rw [hrec] at h; simp at h
          | some pr =>
            obtain ⟨out2, tr0⟩ := pr
            rw [hrec] at h
            simp only [Option.map_some', Option.some.injEq, Prod.mk.injEq] at h
            obtain ⟨rfl, rfl⟩ := h
            cases k with
            | zero =>
              rw [List.getElem?_cons_zero] at hk
              have hdteq : dtf = dt := congrArg Prod.fst (Option.some.inj hk)
              subst hdteq
              exact absurd hptr hc
            | succ k =>
              rw [List.getElem?_cons_succ] at hk
              have hv2 : vals[(i + 1) + k]? = some (FieldVal.pair a v) := by
                rwa [show (i + 1) + k = i + (k + 1) by omega]
              obtain ⟨p, hp⟩ := ih (i + 1) (pos + b.length) _ out2 tr0 hsh' hrec
                k dt nm a v hk hptr hv2
              refine ⟨p, ?_⟩
              rw [show i + (k + 1) = (i + 1) + k by omega]
              exact List.mem_cons_of_mem _ hp
        · exact Option.noConfusion h

theorem writeEntry_total (s : MxeSettings) (templates : List Template)
    (file : Bytes) (e : TocEntry)
    (hwf : ∀ t, findTemplate templates (typeKey e.typeName) = some t →
      0 ≤ followAddress s e.recordAddr ∧ fieldShape s e.fields t.fields 0) :
    writeEntry s templates file e ≠ none := by
  intro hnone
  rw [writeEntry] at hnone
  split at hnone
  · exact Option.noConfusion hnone
  · rename_i t ht
    split at hnone
    · rename_i hneg
      have := (hwf t ht).1
      omega
    · exact writeFields_total s e.fields t.fields 0 _ file (hwf t ht).2 hnone

theorem writeEntry_trace (s : MxeSettings) (templates : List Template)
    (file : Bytes) (e : TocEntry) (out : Bytes) (tr : List (Nat × Nat × Bytes))
    (h : writeEntry s templates file e = some (out, tr))
    (t : Template) (ht : findTemplate templates (typeKey e.typeName) = some t)
    (hsh : fieldShape s e.fields t.fields 0) :
    ∀ (k : Nat) (dt : DType) (nm : List Char) (a : Bytes) (v : PyVal),
      t.fields[k]? = some (dt, nm) → ptrResolved s dt →
      e.fields[k]? = some (FieldVal.pair a v) → ∃ p, (k, p, a) ∈ tr := by
  intro k dt nm a v hk hptr hv
  simp only [writeEntry, ht] at h
  split at h
  · exact Option.noConfusion h
  · obtain ⟨p, hp⟩ := writeFields_trace s e.fields t.fields 0 _ file out tr hsh h
      k dt nm a v hk hptr (by rwa [Nat.zero_add])
    exact ⟨p, by rwa [Nat.zero_add] at hp⟩

theorem writeEntries_total (s : MxeSettings) (templates : List Template) :
    ∀ (table : List TocEntry) (file : Bytes) (n : Nat),
      (∀ (m : Nat) (e : TocEntry), table[m]? = some e →
        ∀ t, findTemplate templates (typeKey e.typeName) = some t →
          0 ≤ followAddress s e.recordAddr ∧ fieldShape s e.fields t.fields 0) →
      writeEntries s templates file n table ≠ none := by
  intro table
  induction table with
  | nil => intro file n hwf hnone; simp [writeEntries] at hnone
  | cons e rest ih =>
    intro file n hwf hnone
    rw [writeEntries] at hnone
    cases h1 : writeEntry s templates file e with
    | none =>
      exact writeEntry_total s templates file e (hwf 0 e (by simp)) h1
    | some pr =>
      obtain ⟨f2, tr1⟩ := pr
      rw [h1] at hnone
      simp only [Option.bind_eq_bind, Option.some_bind] at hnone
      cases h2 : writeEntries s templates f2 (n + 1) rest with
      | none =>
        exact ih f2 (n + 1) (fun m e2 hm => hwf (m + 1) e2 (by simpa using hm)) h2
      | some pr2 =>
        rw [h2] at hnone
        simp at hnone

theorem writeEntries_trace (s : MxeSettings) (templates : List Template) :
    ∀ (table : List TocEntry) (file : Bytes) (n : Nat) (out : Bytes)
      (tr : List (Nat × Nat × Nat × Bytes)),
      writeEntries s templates file n table = some (out, tr) →
      (∀ (m : Nat) (e : TocEntry), table[m]? = some e →
        ∀ t, findTemplate templates (typeKey e.typeName) = some t →
          fieldShape s e.fields t.fields 0) →
      ∀ (m : Nat) (e : TocEntry) (t : Template) (k : Nat) (dt : DType)
        (nm : List Char) (a : Bytes) (v : PyVal),
        table[m]? = some e →
        findTemplate templates (typeKey e.typeName) = some t →
        t.fields[k]? = some (dt, nm) → ptrResolved s dt →
        e.fields[k]? = some (FieldVal.pair a v) →
        ∃ p, (n + m, k, p, a) ∈ tr := by
  intro table
  induction table with
  | nil =>
    intro file n out tr h hsh m e t k dt nm a v hm
    simp at hm
  | cons e0 rest ih =>
    intro file n out tr h hsh m e t k dt nm a v hm ht hk hptr hv
    rw [writeEntries] at h
    cases h1 : writeEntry s templates file e0 with
    | none => rw [h1] at h; simp at h
    | some pr =>
      obtain ⟨f2, tr1⟩ := pr
      rw [h1] at h
      simp only [Option.bind_eq_bind, Option.some_bind] at h
      cases h2 : writeEntries s templates f2 (n + 1) rest with
      | none => rw [h2] at h; simp at h
      | some pr2 =>
        obtain ⟨f3, trs⟩ := pr2
        rw [h2] at h
        simp only [Option.bind_eq_bind, Option.some_bind, Option.pure_def,
          Option.some.injEq, Prod.mk.injEq] at h
        obtain ⟨rfl, rfl⟩ := h
        cases m with
        | zero =>
          rw [List.getElem?_cons_zero] at hm
          obtain rfl : e0 = e := Option.some.inj hm
          obtain ⟨p, hp⟩ := writeEntry_trace s templates file e0 f2 tr1 h1 t ht
            (hsh 0 e0 (by simp) t ht) k dt nm a v hk hptr hv
          refine ⟨p, ?_⟩
          rw [Nat.add_zero]
          exact List.mem_append_left _ (List.mem_map.mpr ⟨(k, p, a), hp, rfl⟩)
        | succ m =>
          rw [List.getElem?_cons_succ] at hm
          obtain ⟨p, hp⟩ := ih f2 (n + 1) f3 trs h2
            (fun m2 e2 hm2 => hsh (m2 + 1) e2 (by simpa using hm2)) m e t k dt nm
            a v hm ht hk hptr hv
          refine ⟨p, ?_⟩
          rw [show n + (m + 1) = (n + 1) + m by omega]
          exact List.mem_append_right _ hp

theorem csvTemplate_mem (templates : List Template) (csv : List (List PyVal))
    (tc : Template) (h : csvTemplate templates csv = some tc) : tc ∈ templates := by
  rcases csv with _ | ⟨row0, rest⟩
  · simp [csvTemplate] at h
  · rcases rest with _ | ⟨row1, rest2⟩
    · simp [csvTemplate] at h
    · simp only [csvTemplate] at h
      split at h
      · split at h
        · exact List.mem_of_find?_eq_some h
        · exact Option.noConfusion h
      · exact Option.noConfusion h

/-! ### Claim C1 -/

/-- **C1** (amended): after a read, pointer fields hold `[raw address,
resolved]` pairs, and write-back emits exactly the stored raw address bytes
for every resolved pointer field of every entry - through any CSV import
whose applied template (the one named by the first data row) is
pointer-typed at every column where any record template carries a resolved
pointer.  (Without that compatibility condition the import can overwrite a
pointer pair: the template is chosen by the row's `InternalName`, not the
entry's own type - see the counterexample.) -/
theorem pointer_fields_write_raw_bytes (file : Bytes) (templates : List Template)
    (s : MxeSettings) (table table2 : List TocEntry) (csv : List (List PyVal))
    (hr : readMXEFile file templates s = some table)
    (hleg : ∀ t ∈ templates, ∀ f ∈ t.fields, DataTypes f.1 ≠ none)
    (himp : applyCSVtoMXE table templates csv = some table2)
    (hcompat : ∀ tc, csvTemplate templates csv = some tc →
      ∀ (j : Nat) (q : DType × List Char), tc.fields[j]? = some q →
        ¬ isPointerDT q.1 = true →
        ∀ t ∈ templates, ∀ p : DType × List Char, t.fields[j]? = some p →
          ¬ ptrResolved s p.1) :
    ∃ out tr, writeMXEFile file table2 templates s = some (out, tr) ∧
      ∀ (n : Nat) (e : TocEntry) (t : Template) (j : Nat) (dt : DType)
        (nm : List Char) (a : Bytes) (v : PyVal),
        table[n]? = some e →
        findTemplate templates (typeKey e.typeName) = some t →
        t.fields[j]? = some (dt, nm) → ptrResolved s dt →
        e.fields[j]? = some (FieldVal.pair a v) →
        ∃ p, (n, j, p, a) ∈ tr := by
  have hwf := readMXE_wf file templates s table hr hleg
  have hcorr : table2.length = table.length ∧
      ∀ (n : Nat) (e : TocEntry), table[n]? = some e →
        ∃ e2, table2[n]? = some e2 ∧ e2.typeName = e.typeName ∧
          e2.recordAddr = e.recordAddr ∧ e2.fields.length = e.fields.length ∧
          ∀ j : Nat,
            (e2.fields[j]? = e.fields[j]? ∨
              ∃ bb, e2.fields[j]? = some (FieldVal.raw bb)) ∧
            ((∃ t, t ∈ templates ∧ ∃ p : DType × List Char,
                t.fields[j]? = some p ∧ ptrResolved s p.1) →
              e2.fields[j]? = e.fields[j]?) := by
    rcases applyCSV_cases table templates csv table2 himp with rfl |
      ⟨tc, hdr0, rows, htc, happ⟩
    · exact ⟨rfl, fun n e hn =>
        ⟨e, hn, rfl, rfl, rfl, fun j => ⟨Or.inl rfl, fun _ => rfl⟩⟩⟩
    · have htcmem : tc ∈ templates := csvTemplate_mem templates csv tc htc
      have hkn : ∀ (k : Nat) (q : DType × List Char), tc.fields[k]? = some q →
          DataTypes q.1 ≠ none := fun k q hq => hleg tc htcmem q (mem_of_get? hq)
      obtain ⟨hlen, hent⟩ := applyDataRows_frame tc hdr0 hkn rows table none table2 happ
      refine ⟨hlen, fun n e hn => ?_⟩
      obtain ⟨e2, he2, m1, m2, m3, m4, m5, m6, hj⟩ := hent n e hn
      refine ⟨e2, he2, m4, m5, m6, fun j => ⟨(hj j).1, fun hps => ?_⟩⟩
      obtain ⟨t, htm, p, htp, hptr⟩ := hps
      refine (hj j).2 (Or.inr ?_)
      intro q hq
      rw [Nat.sub_zero] at hq
      by_cases hiq : isPointerDT q.1 = true
      · exact hiq
      · exact absurd hptr (hcompat tc htc j q hq hiq t htm p htp)
  obtain ⟨hlen2, hcor⟩ := hcorr
  have hwf2 : ∀ (m : Nat) (e2 : TocEntry), table2[m]? = some e2 →
      ∀ t, findTemplate templates (typeKey e2.typeName) = some t →
        0 ≤ followAddress s e2.recordAddr ∧ fieldShape s e2.fields t.fields 0 := by
    intro m e2 hm t ht
    have hmlt : m < table.length := by
      have h1 := (List.getElem?_eq_some_iff.mp hm).1
      omega
    obtain ⟨e, he⟩ : ∃ e, table[m]? = some e :=
      ⟨table[m], List.getElem?_eq_getElem hmlt⟩
    obtain ⟨e2x, he2x, c1, c2, c3, hjj⟩ := hcor m e he
    obtain rfl : e2 = e2x := by rw [hm] at he2x; exact Option.some.inj he2x
    rw [c1] at ht
    obtain ⟨hpos, hlenf, hsh⟩ := hwf m e he t ht
    constructor
    · rw [c2]; exact hpos
    · intro k dt nm hk
      have hdtk : DataTypes dt ≠ none :=
        hleg t (List.mem_of_find?_eq_some ht) (dt, nm) (mem_of_get? hk)
      have hidx := hsh k dt nm hk
      refine ⟨hdtk, ?_, ?_⟩
      · intro hptr
        obtain ⟨a, v, hav⟩ := hidx.1 hptr
        refine ⟨a, v, ?_⟩
        rw [Nat.zero_add,
          (hjj k).2 ⟨t, List.mem_of_find?_eq_some ht, (dt, nm), hk, hptr⟩]
        exact hav
      · intro hnptr
        obtain ⟨b, hbv⟩ := hidx.2 hnptr
        rcases (hjj k).1 with heq | ⟨bb, hraw⟩
        · exact ⟨b, by rw [Nat.zero_add, heq]; exact hbv⟩
        · exact ⟨bb, by rw [Nat.zero_add]; exact hraw⟩
  have htot := writeEntries_total s templates table2 file 0 hwf2
  cases hxw : writeEntries s templates file 0 table2 with
  | none => exact absurd hxw htot
  | some pr =>
    obtain ⟨out, tr⟩ := pr
    refine ⟨out, tr, hxw, ?_⟩
    intro n e t j dt nm a v hn ht hj hptr hv
    obtain ⟨e2, he2, c1, c2, c3, hjj⟩ := hcor n e hn
    have hv2 : e2.fields[j]? = some (FieldVal.pair a v) := by
      rw [(hjj j).2 ⟨t, List.mem_of_find?_eq_some ht, (dt, nm), hj, hptr⟩]
      exact hv
    obtain ⟨p, hp⟩ := writeEntries_trace s templates table2 file 0 out tr hxw
      (fun m em hm t2 ht2 => (hwf2 m em hm t2 ht2).2) n e2 t j dt nm a v he2
      (by rw [c1]; exact ht) hj hptr hv2
    exact ⟨p, by rwa [Nat.zero_add] at hp⟩

/-- **C1** counterexample: a type-confused import (`InternalName` `B`, whose
template has `<i` where the entry's own template `A` has the resolved `<p`)
overwrites the stored pointer pair of entry 0, and write-back then emits a
77-byte zero fill instead of the raw address bytes `[96,0,0,0]` read from
the file - refuting "this holds regardless of any CSV import applied
between read and write, because import always skips pointer-typed fields". -/
theorem pointer_raw_write_counterexample :
    readMXEFile fileGood [tA4, tB] zeroOffsetSettings = some tableGood ∧
    applyCSVtoMXE tableGood [tA4, tB] csvConfu = some tableConfu ∧
    (tableGood.map (fun e => e.fields))[0]? =
      some [.raw [5, 0, 0, 0], .pair [96, 0, 0, 0] (.str ['h'])] ∧
    tA4.fields[1]? = some (.lp, []) ∧
    zeroOffsetSettings.resolveClassicPointers = true ∧
    (writeMXEFile fileGood tableConfu [tA4, tB] zeroOffsetSettings).map Prod.snd =
      some [(0, 0, 80, [5, 0, 0, 0]), (0, 1, 84, List.replicate 77 0),
            (1, 0, 88, [9, 0, 0, 0]), (1, 1, 92, [96, 0, 0, 0])] ∧
    List.replicate 77 0 ≠ [96, 0, 0, 0] := by
  refine ⟨by decide, by decide, by decide, by decide, by decide, by decide, by decide⟩

/-- **C1** witness: the amended theorem at a concrete read table and the
empty (vacuously compatible) import. -/
theorem pointer_fields_write_raw_bytes_witness :
    ∃ out tr,
      writeMXEFile fileGood tableGood [tA4, tB] zeroOffsetSettings = some (out, tr) ∧
      ∀ (n : Nat) (e : TocEntry) (t : Template) (j : Nat) (dt : DType)
        (nm : List Char) (a : Bytes) (v : PyVal),
        tableGood[n]? = some e →
        findTemplate [tA4, tB] (typeKey e.typeName) = some t →
        t.fields[j]? = some (dt, nm) → ptrResolved zeroOffsetSettings dt →
        e.fields[j]? = some (FieldVal.pair a v) →
        ∃ p, (n, j, p, a) ∈ tr :=
  pointer_fields_write_raw_bytes fileGood [tA4, tB] zeroOffsetSettings tableGood
    tableGood [] (by decide) (by decide) (by decide)
    (by intro tc h; simp [csvTemplate] at h)

/-! ### Export-side lemmas for the round-trip -/

theorem splitFirstColon_no_colon : ∀ (l : List Char), ':' ∉ l →
    splitFirstColon l = (l, []) := by
  intro l
  induction l with
  | nil => intro h; rfl
  | cons c rest ih =>
    intro h
    have hc : c ≠ ':' := fun hh => h (hh ▸ List.mem_cons_self c rest)
    have hr := ih (fun hm => h (List.mem_cons_of_mem c hm))
    simp only [splitFirstColon] at hr ⊢
    rw [List.takeWhile_cons, List.dropWhile_cons,
      if_pos (show (fun c => decide (c ≠ ':')) c = true from decide_eq_true hc),
      if_pos (show (fun c => decide (c ≠ ':')) c = true from decide_eq_true hc)]
    rw [Prod.mk.injEq] at hr ⊢
    exact ⟨by rw [hr.1], hr.2⟩

theorem splitFirstColon_append : ∀ (l1 l2 : List Char), ':' ∉ l1 →
    splitFirstColon (l1 ++ ':' :: l2) = (l1, l2) := by
  intro l1
  induction l1 with
  | nil =>
    intro l2 h
    simp only [List.nil_append, splitFirstColon]
    rw [List.takeWhile_cons, List.dropWhile_cons,
      if_neg (by decide : ¬ ((fun c => decide (c ≠ ':')) ':' = true)),
      if_neg (by decide : ¬ ((fun c => decide (c ≠ ':')) ':' = true))]
  | cons c rest ih =>
    intro l2 h
    have hc : c ≠ ':' := fun hh => h (hh ▸ List.mem_cons_self c rest)
    have hr := ih l2 (fun hm => h (List.mem_cons_of_mem c hm))
    simp only [splitFirstColon] at hr ⊢
    rw [List.cons_append, List.takeWhile_cons, List.dropWhile_cons,
      if_pos (show (fun c => decide (c ≠ ':')) c = true from decide_eq_true hc),
      if_pos (show (fun c => decide (c ≠ ':')) c = true from decide_eq_true hc)]
    rw [Prod.mk.injEq] at hr ⊢
    exact ⟨by rw [hr.1], hr.2⟩

theorem dtChars_no_colon (dt : DType) (h : DataTypes dt ≠ none) :
    ':' ∉ dtChars dt := by
  cases dt
  case other tag => exact absurd rfl h
  case sTxt => exact absurd rfl h
  all_goals decide

theorem mapM_headerPair_str (gs : (DType × List Char) → List Char) :
    ∀ (l : List (DType × List Char)),
      (l.map (fun f => PyVal.str (gs f))).mapM headerPair =
        some (l.map (fun f => splitFirstColon (gs f))) := by
  intro l
  induction l with
  | nil => rfl
  | cons f rest ih =>
    rw [List.map_cons, List.map_cons, List.mapM_cons, ih]
    rfl

theorem headerCells_pairs (t : Template)
    (hkn : ∀ (k : Nat) (q : DType × List Char), t.fields[k]? = some q →
      DataTypes q.1 ≠ none) :
    ((headerCells t).drop 2).mapM headerPair =
      some (t.fields.map (fun f =>
        splitFirstColon (if f.2 = [] then dtChars f.1
          else dtChars f.1 ++ ':' :: f.2))) ∧
    ∀ (k : Nat) (dt : DType) (nm : List Char), t.fields[k]? = some (dt, nm) →
      ∃ hp, (t.fields.map (fun f =>
          splitFirstColon (if f.2 = [] then dtChars f.1
            else dtChars f.1 ++ ':' :: f.2)))[k]? = some hp ∧
        hp.1 = dtChars dt := by
  constructor
  · have hdrop : (headerCells t).drop 2 = t.fields.map (fun f =>
        PyVal.str (if f.2 = [] then dtChars f.1 else dtChars f.1 ++ ':' :: f.2)) := by
      simp [headerCells]
    rw [hdrop, mapM_headerPair_str]
  · intro k dt nm hk
    refine ⟨splitFirstColon (if nm = [] then dtChars dt else dtChars dt ++ ':' :: nm),
      by rw [List.getElem?_map, hk]; rfl, ?_⟩
    have hnc : ':' ∉ dtChars dt := dtChars_no_colon dt (hkn k (dt, nm) hk)
    by_cases hnm : nm = []
    · rw [if_pos hnm, splitFirstColon_no_colon (dtChars dt) hnc]
    · rw [if_neg hnm, splitFirstColon_append (dtChars dt) nm hnc]

theorem renderCell_plain (s : MxeSettings) (xlb : List XLBSection) (dt : DType)
    (b : Bytes) (hnp : ¬ isPointerDT dt = true) :
    renderCell s defaultMods xlb dt (FieldVal.raw b) = bytesToText b dt := by
  have h1 : ¬ (dt = DType.lp ∨ dt = DType.bp) := by
    rintro (rfl | rfl) <;> exact hnp (by decide)
  have h2 : ¬ (dt = DType.lpi ∨ dt = DType.bpi) := by
    rintro (rfl | rfl) <;> exact hnp (by decide)
  rw [renderCell, if_neg (by decide), if_neg h1, if_neg h2]

theorem renderCells_spec (s : MxeSettings) (m : OutputModifiers)
    (xlb : List XLBSection) (t : Template) :
    ∀ (fv : List FieldVal) (i : Nat) (cells : List PyVal),
      renderCells s m xlb t fv i = some cells →
      ∀ (k : Nat) (d : FieldVal), fv[k]? = some d →
        ∃ tf cell, t.fields[i + k]? = some tf ∧
          renderCell s m xlb tf.1 d = some cell ∧ cells[k]? = some cell := by
  intro fv
  induction fv with
  | nil => intro i cells h k d hk; simp at hk
  | cons d0 rest ih =>
    intro i cells h k d hk
    rw [renderCells] at h
    cases htf : t.fields[i]? with
    | none => rw [htf] at h; simp at h
    | some tf =>
      rw [htf] at h
      simp only [Option.bind_eq_bind, Option.some_bind] at h
      cases hcel : renderCell s m xlb tf.1 d0 with
      | none => rw [hcel] at h; simp at h
      | some cell =>
        rw [hcel] at h
        simp only [Option.bind_eq_bind, Option.some_bind] at h
        cases hrest : renderCells s m xlb t rest (i + 1) with
        | none => rw [hrest] at h; simp at h
        | some cs =>
          rw [hrest] at h
          simp only [Option.bind_eq_bind, Option.some_bind, Option.pure_def,
            Option.some.injEq] at h
          subst h
          cases k with
          | zero =>
            rw [List.getElem?_cons_zero] at hk
            obtain rfl : d0 = d := Option.some.inj hk
            exact ⟨tf, cell, by rw [Nat.add_zero]; exact htf, hcel, by simp⟩
          | succ k =>
            rw [List.getElem?_cons_succ] at hk
            obtain ⟨tf2, cell2, h1, h2, h3⟩ := ih (i + 1) cs hrest k d hk
            exact ⟨tf2, cell2, by rwa [show i + (k + 1) = (i + 1) + k by omega],
              h2, by simpa using h3⟩

theorem exportRows_mem (s : MxeSettings) (m : OutputModifiers)
    (xlb : List XLBSection) (t : Template) (tn : List Char) :
    ∀ (lst : List TocEntry) (rows : List (List PyVal)),
      exportRows s m xlb t tn lst = some rows →
      ∀ r ∈ rows, ∃ e, e ∈ lst ∧ typeKey e.typeName = tn ∧
        exportRow s m xlb t e = some r := by
  intro lst
  induction lst with
  | nil =>
    intro rows h r hr
    simp only [exportRows, Option.some.injEq] at h
    subst h
    cases hr
  | cons e rest ih =>
    intro rows h r hr
    rw [exportRows] at h
    split at h
    · rename_i hty
      cases hre : exportRow s m xlb t e with
      | none => rw [hre] at h; simp at h
      | some r0 =>
        rw [hre] at h
        simp only [Option.bind_eq_bind, Option.some_bind] at h
        cases hrs : exportRows s m xlb t tn rest with
        | none => rw [hrs] at h; simp at h
        | some rs =>
          rw [hrs] at h
          simp only [Option.bind_eq_bind, Option.some_bind, Option.pure_def,
            Option.some.injEq] at h
          subst h
          rcases List.mem_cons.mp hr with rfl | hr2
          · exact ⟨e, List.mem_cons_self e rest, hty, hre⟩
          · obtain ⟨e2, he2, h1, h2⟩ := ih rs hrs r hr2
            exact ⟨e2, List.mem_cons_of_mem e he2, h1, h2⟩
    · obtain ⟨e2, he2, h1, h2⟩ := ih rows h r hr
      exact ⟨e2, List.mem_cons_of_mem e he2, h1, h2⟩

theorem rowLookup_int (len : Nat) (idx : Option Nat) (tailr : List PyVal)
    (n : Nat) (hn : n < len) :
    rowLookup len idx (PyVal.int (n : Int) :: tailr) = some (some n) := by
  unfold rowLookup
  simp only [List.getElem?_cons_zero, pyInt]
  unfold pyIndex
  rw [if_pos (by omega : (0 : Int) ≤ (n : Int)),
    if_pos (by exact_mod_cast hn : (n : Int) < (len : Int))]
  simp

theorem applyRowFields_skip_all (hdr : List (List Char × List Char))
    (row : List PyVal) (kOpt : Option Nat) (table : List TocEntry) :
    ∀ (tfs : List (DType × List Char)) (i : Nat),
      (∀ (k : Nat) (dt : DType) (nm : List Char), tfs[k]? = some (dt, nm) →
        ¬ isPointerDT dt = true →
        ∃ hp cell b, hdr[i + k]? = some hp ∧ hp.1 = dtChars dt ∧
          row[2 + (i + k)]? = some cell ∧ objToBytes cell dt = some (some b) ∧
          ∃ kk e, kOpt = some kk ∧ table[kk]? = some e ∧
            e.fields[i + k]? = some (FieldVal.raw b)) →
      ∀ res, applyRowFields hdr row kOpt table tfs i = res → res = some table := by
  intro tfs
  induction tfs with
  | nil =>
    intro i hyp res h
    rw [← h]
    rfl
  | cons f rest ih =>
    intro i hyp res h
    obtain ⟨dt, nm⟩ := f
    have hyp2 : ∀ (k : Nat) (dt2 : DType) (nm2 : List Char),
        rest[k]? = some (dt2, nm2) → ¬ isPointerDT dt2 = true →
        ∃ hp cell b, hdr[(i + 1) + k]? = some hp ∧ hp.1 = dtChars dt2 ∧
          row[2 + ((i + 1) + k)]? = some cell ∧ objToBytes cell dt2 = some (some b) ∧
          ∃ kk e, kOpt = some kk ∧ table[kk]? = some e ∧
            e.fields[(i + 1) + k]? = some (FieldVal.raw b) := by
      intro k dt2 nm2 hk hnp
      have h2 := hyp (k + 1) dt2 nm2 (by rw [List.getElem?_cons_succ]; exact hk) hnp
      rwa [show i + (k + 1) = (i + 1) + k by omega] at h2
    rw [applyRowFields] at h
    split at h
    · exact ih (i + 1) hyp2 res h
    · rename_i hp hhp
      split at h
      · exact ih (i + 1) hyp2 res h
      · rename_i hph
        split at h
        · exact ih (i + 1) hyp2 res h
        · rename_i hnp
          obtain ⟨hp0, cell0, b0, hh0, hp10, hcell0, hob0, kk0, e0, hko0, hke0, hfe0⟩ :=
            hyp 0 dt nm (by simp) hnp
          rw [Nat.add_zero] at hh0 hcell0 hfe0
          split at h
          · rename_i heq
            exact absurd (hcell0.symm.trans heq) (by simp)
          · rename_i cell heq
            obtain rfl : cell0 = cell := Option.some.inj (hcell0.symm.trans heq)
            split at h
            · rename_i hob
              exact absurd (hob0.symm.trans hob) (by simp)
            · rename_i b hob
              obtain rfl : some b0 = b := Option.some.inj (hob0.symm.trans hob)
              split at h
              · exact absurd hko0 (by simp)
              · rename_i kk
                obtain rfl : kk = kk0 := Option.some.inj hko0
                split at h
                · rename_i hke
                  exact absurd (hke0.symm.trans hke) (by simp)
                · rename_i e hke
                  obtain rfl : e0 = e := Option.some.inj (hke0.symm.trans hke)
                  split at h
                  · rename_i heqf
                    exact absurd (hfe0.symm.trans heqf) (by simp)
                  · rename_i fv hfv
                    obtain rfl : FieldVal.raw b0 = fv :=
                      Option.some.inj (hfe0.symm.trans hfv)
                    split at h
                    · exact ih (i + 1) hyp2 res h
                    · rename_i hne
                      exact absurd (by simp [eqVal]) hne

theorem applyDataRows_identity (t : Template) (hdr : List (List Char × List Char))
    (table : List TocEntry) :
    ∀ (rows : List (List PyVal)),
      (∀ r ∈ rows, ∃ (n : Nat) (e : TocEntry) (cells : List PyVal),
        table[n]? = some e ∧ e.entryId = (n : Int) ∧
        r = PyVal.int e.entryId :: PyVal.str e.typeName :: cells ∧
        (∀ (k : Nat) (dt : DType) (nm : List Char), t.fields[k]? = some (dt, nm) →
          ¬ isPointerDT dt = true →
          ∃ hp cell b, hdr[k]? = some hp ∧ hp.1 = dtChars dt ∧
            cells[k]? = some cell ∧ objToBytes cell dt = some (some b) ∧
            e.fields[k]? = some (FieldVal.raw b))) →
      ∀ (idx : Option Nat) (res : Option (List TocEntry)),
        applyDataRows t hdr table idx rows = res → res = some table := by
  intro rows
  induction rows with
  | nil =>
    intro hyp idx res h
    rw [← h]
    rfl
  | cons r rest ih =>
    intro hyp idx res h
    obtain ⟨n, e, cells, hn, hid, hreq, hflds⟩ := hyp r (List.mem_cons_self r rest)
    have hnlt : n < table.length := (List.getElem?_eq_some_iff.mp hn).1
    subst hreq
    rw [applyDataRows, hid,
      rowLookup_int table.length idx (PyVal.str e.typeName :: cells) n hnlt] at h
    simp only [Option.bind_eq_bind, Option.some_bind] at h
    have hrow : applyRowFields hdr
        (PyVal.int (n : Int) :: PyVal.str e.typeName :: cells)
        (some n) table t.fields 0 = some table := by
      refine applyRowFields_skip_all hdr _ (some n) table t.fields 0 ?_ _ rfl
      intro k dt nm hk hnp
      obtain ⟨hp, cell, b, h1, h2, h3, h4, h5⟩ := hflds k dt nm hk hnp
      refine ⟨hp, cell, b, by rwa [Nat.zero_add], h2, ?_, h4, n, e, rfl, hn,
        by rwa [Nat.zero_add]⟩
      rw [show 2 + (0 + k) = k + 1 + 1 by omega]
      rw [List.getElem?_cons_succ, List.getElem?_cons_succ]
      exact h3
    rw [hrow] at h
    simp only [Option.some_bind] at h
    exact ih (fun r2 hr2 => hyp r2 (List.mem_cons_of_mem _ hr2)) (some n) res h

/-! ### Claim C4 -/

/-- **C4** (amended): exporting a loaded Main Table to tabular form and then
re-importing the exported table changes nothing - every field, pointer or
not, keeps its stored value - provided the table's TOC ids equal the
entries' Main-Table indices (the export writes the TOC id into `RecordId`,
and the import uses `RecordId` as a list *index*), force-hex is off, the
applied template has no float columns, and every non-pointer field's decoded value
round-trips exactly through its codec (which holds for the fixed-width
integer types and `>h`, but not for `<h`, whose display decodes back
byte-reversed).  The no-float hypothesis `hnf` is not consumed by the Lean
proof; it is the scope guard of the statement: the program's float codec
applies the lossy `round(.., 2)` normalization of lines 112-127/168-172,
which the byte-token model does not capture (the model's float round-trip
is the identity, the program's is not - a not-yet-rounded `<f`/`>f` value
is rewritten by the real import), so the theorem only asserts the
round-trip on templates where that unmodelled path cannot run. -/
theorem export_import_identity (file : Bytes) (templates : List Template)
    (s : MxeSettings) (xlb : List XLBSection) (table : List TocEntry)
    (tn : List Char) (t : Template) (csvOut : List (List PyVal))
    (hr : readMXEFile file templates s = some table)
    (hleg : ∀ tt ∈ templates, ∀ f ∈ tt.fields, DataTypes f.1 ≠ none)
    (hid : ∀ (n : Nat) (e : TocEntry), table[n]? = some e → e.entryId = (n : Int))
    (ht : findTemplate templates tn = some t)
    (hexp : writeMXEtoCSVTable table templates tn s defaultMods xlb = some csvOut)
    (hnf : ∀ q ∈ t.fields, (q : DType × List Char).1 ≠ DType.lf ∧
      q.1 ≠ DType.bf)
    (hrt : ∀ (n : Nat) (e : TocEntry), table[n]? = some e →
      typeKey e.typeName = tn →
      ∀ (j : Nat) (dt : DType) (nm : List Char) (b : Bytes),
        t.fields[j]? = some (dt, nm) → ¬ isPointerDT dt = true →
        e.fields[j]? = some (FieldVal.raw b) → codecRoundTrips dt b) :
    applyCSVtoMXE table templates csvOut = some table := by
  have hwf := readMXE_wf file templates s table hr hleg
  have hknt : ∀ (k : Nat) (q : DType × List Char), t.fields[k]? = some q →
      DataTypes q.1 ≠ none :=
    fun k q hq => hleg t (List.mem_of_find?_eq_some ht) q (mem_of_get? hq)
  rw [writeMXEtoCSVTable, ht] at hexp
  simp only [Option.bind_eq_bind, Option.some_bind] at hexp
  cases hrows : exportRows s defaultMods xlb t tn table with
  | none => rw [hrows] at hexp; simp at hexp
  | some rows =>
    rw [hrows] at hexp
    simp only [Option.bind_eq_bind, Option.some_bind, Option.pure_def,
      Option.some.injEq] at hexp
    subst hexp
    obtain ⟨hmapm, hhdr⟩ := headerCells_pairs t hknt
    -- the per-row facts the import needs
    have hrowsOK : ∀ r ∈ rows, ∃ (n : Nat) (e : TocEntry) (cells : List PyVal),
        table[n]? = some e ∧ e.entryId = (n : Int) ∧
        r = PyVal.int e.entryId :: PyVal.str e.typeName :: cells ∧
        (∀ (k : Nat) (dt : DType) (nm : List Char), t.fields[k]? = some (dt, nm) →
          ¬ isPointerDT dt = true →
          ∃ hp cell b, (t.fields.map (fun f =>
              splitFirstColon (if f.2 = [] then dtChars f.1
                else dtChars f.1 ++ ':' :: f.2)))[k]? = some hp ∧
            hp.1 = dtChars dt ∧
            cells[k]? = some cell ∧ objToBytes cell dt = some (some b) ∧
            e.fields[k]? = some (FieldVal.raw b)) := by
      intro r hrmem
      obtain ⟨e, hemem, htk, hexpr⟩ :=
        exportRows_mem s defaultMods xlb t tn table rows hrows r hrmem
      obtain ⟨n, hn⟩ := get?_of_mem hemem
      obtain ⟨cs, hcs, hcsr⟩ := Option.map_eq_some'.mp hexpr
      refine ⟨n, e, cs, hn, hid n e hn, hcsr.symm, ?_⟩
      intro k dt nm hk hnp
      have hnpr : ¬ ptrResolved s dt :=
        fun hp => hnp (ptrResolved_isPointer s dt hp)
      obtain ⟨hpos, hlenf, hshape⟩ := hwf n e hn t (by rw [htk]; exact ht)
      obtain ⟨b, hfb⟩ := (hshape k dt nm hk).2 hnpr
      obtain ⟨tf, cell, htf, hcel, hck⟩ :=
        renderCells_spec s defaultMods xlb t e.fields 0 cs hcs k (FieldVal.raw b) hfb
      rw [Nat.zero_add] at htf
      obtain rfl : tf = (dt, nm) := Option.some.inj (htf.symm.trans hk)
      rw [renderCell_plain s xlb dt b hnp] at hcel
      obtain ⟨cell2, hbt2, hob2⟩ := hrt n e hn htk k dt nm b hk hnp hfb
      obtain rfl : cell2 = cell := Option.some.inj (hbt2.symm.trans hcel)
      obtain ⟨hp, hhp, hp1⟩ := hhdr k dt nm hk
      exact ⟨hp, _, b, hhp, hp1, hck, hob2, hfb⟩
    -- unfold the import
    have key : ∀ res, applyCSVtoMXE table templates (headerCells t :: rows) = res →
        res = some table := by
      intro res h
      rw [applyCSVtoMXE] at h
      rw [show (headerCells t)[0]? = some (PyVal.str recordIdChars) from by
          simp [headerCells],
        show (headerCells t)[1]? = some (PyVal.str internalNameChars) from by
          simp [headerCells]] at h
      simp only [Option.bind_eq_bind, Option.some_bind] at h
      rw [if_neg (by simp)] at h
      rw [show (headerCells t).drop 2 = t.fields.map (fun f =>
          PyVal.str (if f.2 = [] then dtChars f.1 else dtChars f.1 ++ ':' :: f.2))
          from by simp [headerCells], mapM_headerPair_str] at h
      simp only [Option.bind_eq_bind, Option.some_bind] at h
      rcases hrc : rows with _ | ⟨r0, rs⟩
      · rw [hrc] at h
        rw [csvBody] at h
        exact h.symm
      · rw [hrc] at h
        rw [csvBody] at h
        obtain ⟨n0, e0, cells0, hn0, hid0, hr0, _⟩ :=
          hrowsOK r0 (by rw [hrc]; exact List.mem_cons_self r0 rs)
        rw [hr0] at h
        simp only [List.getElem?_cons_succ, List.getElem?_cons_zero,
          Option.bind_eq_bind, Option.some_bind, pyStr] at h
        have htk0 : typeKey e0.typeName = tn := by
          obtain ⟨e, hemem, htk, hexpr⟩ := exportRows_mem s defaultMods xlb t tn
            table rows hrows r0 (by rw [hrc]; exact List.mem_cons_self r0 rs)
          obtain ⟨cs, hcs, hcsr⟩ := Option.map_eq_some'.mp hexpr
          rw [hr0] at hcsr
          have he0 : e.typeName = e0.typeName := by
            have := congrArg (fun l => l[1]?) hcsr
            simpa using this
          rw [← he0]
          exact htk
        rw [htk0, ht] at h
        simp only [Option.some_bind] at h
        refine applyDataRows_identity t _ table (r0 :: rs) ?_ none res (by rw [hr0]; exact h)
        rw [← hrc]
        exact hrowsOK
    exact key _ rfl

/-- **C4** counterexample: on a table whose TOC ids are not the Main-Table
indices (`fileSwap` stores ids `1, 0`), export writes the ids into
`RecordId` and import uses them as list indices, so importing the exported
table swaps the two `<i` values: entry 0's non-pointer field changes from
`[5,0,0,0]` to `[9,0,0,0]` even though the `<i` codec round-trips exactly. -/
theorem export_import_changes_field_counterexample :
    readMXEFile fileSwap [tA4, tB] zeroOffsetSettings = some tableSwap ∧
    writeMXEtoCSVTable tableSwap [tA4, tB] ['A'] zeroOffsetSettings defaultMods [] =
      some csvOutSwap ∧
    applyCSVtoMXE tableSwap [tA4, tB] csvOutSwap = some tableCross ∧
    bytesToText [5, 0, 0, 0] .li = some (.int 5) ∧
    objToBytes (.int 5) .li = some (some [5, 0, 0, 0]) ∧
    isPointerDT .li = false ∧
    (tableSwap.map (fun e => e.fields))[0]? =
      some [.raw [5, 0, 0, 0], .pair [96, 0, 0, 0] (.str ['h'])] ∧
    (tableCross.map (fun e => e.fields))[0]? =
      some [.raw [9, 0, 0, 0], .pair [96, 0, 0, 0] (.str ['h'])] ∧
    ([5, 0, 0, 0] : Bytes) ≠ [9, 0, 0, 0] := by
  refine ⟨by decide, by decide, by decide, by decide, by decide, by decide,
    by decide, by decide, by decide⟩

/-- **C4** witness: the amended theorem on `fileGood`, whose TOC ids equal
the indices; its export really is `csvOutGood` and re-importing it is the
identity. -/
theorem export_import_identity_witness :
    applyCSVtoMXE tableGood [tA4, tB] csvOutGood = some tableGood := by
  refine export_import_identity fileGood [tA4, tB] zeroOffsetSettings [] tableGood
    ['A'] tA4 csvOutGood (by decide) (by decide) ?_ (by decide) (by decide)
    (by decide) ?_
  · intro n e hn
    match n with
    | 0 =>
      simp only [tableGood, List.getElem?_cons_zero, Option.some.injEq] at hn
      subst hn
      decide
    | 1 =>
      simp only [tableGood, List.getElem?_cons_succ, List.getElem?_cons_zero,
        Option.some.injEq] at hn
      subst hn
      decide
    | n + 2 =>
      simp [tableGood] at hn
  · have c5 : codecRoundTrips DType.li [5, 0, 0, 0] :=
      ⟨PyVal.int 5, by decide, by decide⟩
    have c9 : codecRoundTrips DType.li [9, 0, 0, 0] :=
      ⟨PyVal.int 9, by decide, by decide⟩
    intro n e hn htk j dt nm b htf hnp hfb
    match n with
    | 0 =>
      simp only [tableGood, List.getElem?_cons_zero, Option.some.injEq] at hn
      subst hn
      match j with
      | 0 =>
        simp only [tA4, List.getElem?_cons_zero, Option.some.injEq,
          Prod.mk.injEq] at htf
        obtain ⟨rfl, rfl⟩ := htf
        simp only [List.getElem?_cons_zero, Option.some.injEq,
          FieldVal.raw.injEq] at hfb
        subst hfb
        exact c5
      | 1 =>
        simp only [tA4, List.getElem?_cons_succ, List.getElem?_cons_zero,
          Option.some.injEq, Prod.mk.injEq] at htf
        obtain ⟨rfl, rfl⟩ := htf
        exact absurd (by decide) hnp
      | j + 2 =>
        simp [tA4] at htf
    | 1 =>
      simp only [tableGood, List.getElem?_cons_succ, List.getElem?_cons_zero,
        Option.some.injEq] at hn
      subst hn
      match j with
      | 0 =>
        simp only [tA4, List.getElem?_cons_zero, Option.some.injEq,
          Prod.mk.injEq] at htf
        obtain ⟨rfl, rfl⟩ := htf
        simp only [List.getElem?_cons_zero, Option.some.injEq,
          FieldVal.raw.injEq] at hfb
        subst hfb
        exact c9
      | 1 =>
        simp only [tA4, List.getElem?_cons_succ, List.getElem?_cons_zero,
          Option.some.injEq, Prod.mk.injEq] at htf
        obtain ⟨rfl, rfl⟩ := htf
        exact absurd (by decide) hnp
      | j + 2 =>
        simp [tA4] at htf
    | n + 2 =>
      simp [tableGood] at hn

end Mxe
